import Mathlib

/-!
# Voting worker: a shallow embedding of `src/worker/main.go`

The worker drains a Redis list of JSON vote payloads (`BRPop`), decodes each
payload with `json.Unmarshal` into a `Vote`, normalises the timestamp with
`parseTimestamp`, inserts a row into the MySQL table `votes`, and on an insert
failure pushes the raw payload back with `LPush`.

The development has three layers.

* `Json`: the part of Go's `encoding/json` that `json.Unmarshal(data, &vote)`
  exercises for a struct of three string fields.
* `GoTime`: the part of Go's `time.Parse` that the five layouts of
  `parseTimestamp` exercise.
* `Worker`: the loop body of `processVotes` as a function on an explicit world
  state; the outcomes of the external calls (Redis, MySQL, the clock) are inputs.

Payloads are Lean strings, that is, sequences of Unicode scalar values; a Go
string that is not valid UTF-8 has no counterpart here.
-/

set_option linter.dupNamespace false

namespace VotingApp

/-- Equality of `Except` values is decidable when it is on both sides. -/
instance instDecidableEqExcept {ε α : Type} [DecidableEq ε] [DecidableEq α] :
    DecidableEq (Except ε α)
  | Except.ok a, Except.ok b =>
    if h : a = b then isTrue (by rw [h]) else isFalse (fun e => h (Except.ok.inj e))
  | Except.error a, Except.error b =>
    if h : a = b then isTrue (by rw [h]) else isFalse (fun e => h (Except.error.inj e))
  | Except.ok _, Except.error _ => isFalse (fun e => Except.noConfusion e)
  | Except.error _, Except.ok _ => isFalse (fun e => Except.noConfusion e)

/-! ## JSON decoding (`encoding/json`) -/

namespace Json

/-- A parsed JSON text. Numbers keep their source text; strings are unquoted. -/
inductive JValue where
  | null
  | bool (b : Bool)
  | number (raw : List Char)
  | str (s : String)
  | arr (elems : List JValue)
  | obj (members : List (String × JValue))

/-- Go's `maxNestingDepth`: the scanner refuses deeper nesting of arrays and objects. -/
def maxNestingDepth : Nat := 10000

/-- The scanner's `isSpace`. -/
def isSpace (c : Char) : Bool :=
  c.toNat = 32 || c.toNat = 9 || c.toNat = 13 || c.toNat = 10

/-- Drop leading JSON white space. -/
def skipSpace : List Char → List Char
  | [] => []
  | c :: cs => if isSpace c then skipSpace cs else c :: cs

/-- An ASCII decimal digit. -/
def isDigit (c : Char) : Bool := 48 ≤ c.toNat && c.toNat ≤ 57

/-- Value of a hexadecimal digit, as in `getu4`. -/
def hexVal (c : Char) : Option Nat :=
  if 48 ≤ c.toNat ∧ c.toNat ≤ 57 then some (c.toNat - 48)
  else if 97 ≤ c.toNat ∧ c.toNat ≤ 102 then some (c.toNat - 87)
  else if 65 ≤ c.toNat ∧ c.toNat ≤ 70 then some (c.toNat - 55)
  else none

/-- Go's `getu4`: the code unit written by a leading `\uXXXX`, if there is one. -/
def getu4 : List Char → Option (Nat × List Char)
  | b :: u :: h1 :: h2 :: h3 :: h4 :: rest =>
    if b.toNat = 92 ∧ u.toNat = 117 then
      match hexVal h1, hexVal h2, hexVal h3, hexVal h4 with
      | some a, some b, some c, some d => some (((a * 16 + b) * 16 + c) * 16 + d, rest)
      | _, _, _, _ => none
    else none
  | _ => none

/-- The Unicode replacement character U+FFFD. -/
def replacementChar : Char := Char.ofNat 0xFFFD

/-- Go's `utf16.IsSurrogate`. -/
def isSurrogate (r : Nat) : Bool := 0xD800 ≤ r && r < 0xE000

/-- Go's `utf16.DecodeRune`: the code point of a surrogate pair, or U+FFFD. -/
def decodeSurrogates (r1 r2 : Nat) : Char :=
  if 0xD800 ≤ r1 ∧ r1 < 0xDC00 ∧ 0xDC00 ≤ r2 ∧ r2 < 0xE000 then
    Char.ofNat ((r1 - 0xD800) * 1024 + (r2 - 0xDC00) + 0x10000)
  else replacementChar

/-- The character a one-letter escape stands for (`\"`, `\\`, `\/`, `\b`, `\f`, `\n`, `\r`, `\t`). -/
def simpleEscape (c : Char) : Option Char :=
  if c.toNat = 34 then some (Char.ofNat 34)
  else if c.toNat = 92 then some (Char.ofNat 92)
  else if c.toNat = 47 then some (Char.ofNat 47)
  else if c.toNat = 98 then some (Char.ofNat 8)
  else if c.toNat = 102 then some (Char.ofNat 12)
  else if c.toNat = 110 then some (Char.ofNat 10)
  else if c.toNat = 114 then some (Char.ofNat 13)
  else if c.toNat = 116 then some (Char.ofNat 9)
  else none

/-- Scan and unquote a string literal whose opening quote has been consumed
(the scanner states `stateInString`, `stateInStringEsc*` together with
`unquote`). Returns the decoded characters, most recent first, and the input
after the closing quote. -/
def scanString : Nat → List Char → List Char → Option (List Char × List Char)
  | 0, _, _ => none
  | _ + 1, _, [] => none
  | fuel + 1, acc, c :: cs =>
    if c.toNat = 34 then some (acc, cs)
    else if c.toNat = 92 then
      match cs with
      | [] => none
      | e :: cs1 =>
        if e.toNat = 117 then
          match getu4 (c :: cs) with
          | none => none
          | some (rr, rest) =>
            if isSurrogate rr then
              match getu4 rest with
              | some (rr1, rest1) =>
                if decodeSurrogates rr rr1 = replacementChar then
                  scanString fuel (replacementChar :: acc) rest
                else scanString fuel (decodeSurrogates rr rr1 :: acc) rest1
              | none => scanString fuel (replacementChar :: acc) rest
            else scanString fuel (Char.ofNat rr :: acc) rest
        else
          match simpleEscape e with
          | some d => scanString fuel (d :: acc) cs1
          | none => none
    else if c.toNat < 32 then none
    else scanString fuel (c :: acc) cs

/-- Consume a maximal run of digits. -/
def spanDigits : List Char → List Char × List Char
  | [] => ([], [])
  | c :: cs => if isDigit c then (c :: (spanDigits cs).1, (spanDigits cs).2) else ([], c :: cs)

/-- Integer part of a number (scanner states `stateNeg`, `state0`, `state1`):
a single `0`, or a nonzero digit followed by digits. -/
def scanInt : List Char → Option (List Char × List Char)
  | [] => none
  | c :: cs =>
    if c.toNat = 48 then some ([c], cs)
    else if 49 ≤ c.toNat ∧ c.toNat ≤ 57 then some (c :: (spanDigits cs).1, (spanDigits cs).2)
    else none

/-- Optional fraction (`stateDot`, `stateDot0`): a dot needs at least one digit. -/
def scanFrac : List Char → Option (List Char × List Char)
  | [] => some ([], [])
  | c :: cs =>
    if c.toNat = 46 then
      match spanDigits cs with
      | ([], _) => none
      | (ds, rest) => some (c :: ds, rest)
    else some ([], c :: cs)

/-- Optional exponent (`stateE`, `stateESign`, `stateE0`). -/
def scanExp : List Char → Option (List Char × List Char)
  | [] => some ([], [])
  | c :: cs =>
    if c.toNat = 101 ∨ c.toNat = 69 then
      match cs with
      | [] => none
      | s :: cs1 =>
        if s.toNat = 43 ∨ s.toNat = 45 then
          match spanDigits cs1 with
          | ([], _) => none
          | (ds, rest) => some (c :: s :: ds, rest)
        else
          match spanDigits (s :: cs1) with
          | ([], _) => none
          | (ds, rest) => some (c :: ds, rest)
    else some ([], c :: cs)

/-- Scan a number literal; returns its text and the remaining input. -/
def scanNumber (cs : List Char) : Option (List Char × List Char) :=
  let signed : List Char × List Char :=
    match cs with
    | c :: rest => if c.toNat = 45 then ([c], rest) else ([], cs)
    | [] => ([], [])
  match scanInt signed.2 with
  | none => none
  | some (i, cs2) =>
    match scanFrac cs2 with
    | none => none
    | some (f, cs3) =>
      match scanExp cs3 with
      | none => none
      | some (e, cs4) => some (signed.1 ++ i ++ f ++ e, cs4)

/-- The literals `true`, `false` and `null`. -/
def scanLiteral (cs : List Char) : Option (JValue × List Char) :=
  if cs.take 4 = "true".data then some (JValue.bool true, cs.drop 4)
  else if cs.take 5 = "false".data then some (JValue.bool false, cs.drop 5)
  else if cs.take 4 = "null".data then some (JValue.null, cs.drop 4)
  else none

mutual
/-- Parse one JSON value at the head of the input (white space already skipped).
The first argument is fuel, the second the number of enclosing arrays and objects. -/
def parseValue : Nat → Nat → List Char → Option (JValue × List Char)
  | 0, _, _ => none
  | _ + 1, _, [] => none
  | fuel + 1, depth, c :: rest =>
    if c.toNat = 123 then
      if maxNestingDepth < depth + 1 then none
      else
        match skipSpace rest with
        | [] => none
        | d :: rest1 =>
          if d.toNat = 125 then some (JValue.obj [], rest1)
          else parseMembers fuel (depth + 1) [] (d :: rest1)
    else if c.toNat = 91 then
      if maxNestingDepth < depth + 1 then none
      else
        match skipSpace rest with
        | [] => none
        | d :: rest1 =>
          if d.toNat = 93 then some (JValue.arr [], rest1)
          else parseElems fuel (depth + 1) [] (d :: rest1)
    else if c.toNat = 34 then
      match scanString (rest.length + 1) [] rest with
      | some (s, rest1) => some (JValue.str (String.mk s.reverse), rest1)
      | none => none
    else if c.toNat = 45 ∨ isDigit c then
      match scanNumber (c :: rest) with
      | some (n, rest1) => some (JValue.number n, rest1)
      | none => none
    else scanLiteral (c :: rest)
/-- Parse the members of an object after `{` or `,`: a key string, a colon, a
value, then `,` (another member must follow) or `}`. -/
def parseMembers : Nat → Nat → List (String × JValue) → List Char → Option (JValue × List Char)
  | 0, _, _, _ => none
  | _ + 1, _, _, [] => none
  | fuel + 1, depth, acc, q :: rest =>
    if q.toNat = 34 then
      match scanString (rest.length + 1) [] rest with
      | none => none
      | some (k, rest1) =>
        match skipSpace rest1 with
        | [] => none
        | col :: rest2 =>
          if col.toNat = 58 then
            match parseValue fuel depth (skipSpace rest2) with
            | none => none
            | some (v, rest3) =>
              match skipSpace rest3 with
              | [] => none
              | t :: rest4 =>
                if t.toNat = 44 then
                  parseMembers fuel depth (acc ++ [(String.mk k.reverse, v)]) (skipSpace rest4)
                else if t.toNat = 125 then
                  some (JValue.obj (acc ++ [(String.mk k.reverse, v)]), rest4)
                else none
          else none
    else none
/-- Parse the elements of an array after `[` or `,`. -/
def parseElems : Nat → Nat → List JValue → List Char → Option (JValue × List Char)
  | 0, _, _, _ => none
  | fuel + 1, depth, acc, cs =>
    match parseValue fuel depth cs with
    | none => none
    | some (v, rest) =>
      match skipSpace rest with
      | [] => none
      | t :: rest1 =>
        if t.toNat = 44 then parseElems fuel depth (acc ++ [v]) (skipSpace rest1)
        else if t.toNat = 93 then some (JValue.arr (acc ++ [v]), rest1)
        else none
end

/-- Parse a whole JSON text (Go's `checkValid` succeeds exactly when this returns a value):
one value, surrounded by optional white space, and nothing else. -/
def parseJSON (data : String) : Option JValue :=
  match parseValue ((skipSpace data.data).length + 1) 0 (skipSpace data.data) with
  | none => none
  | some (v, rest) => if skipSpace rest = [] then some v else none

/-- Vote represents a vote record (`type Vote struct`, fields tagged `vote`,
`voter_id`, `timestamp`). -/
structure Vote where
  Vote : String
  VoterID : String
  Timestamp : String
  deriving DecidableEq, Repr

/-- The three fields of `Vote`. -/
inductive Field where
  | Vote
  | VoterID
  | Timestamp
  deriving DecidableEq, Repr

/-- The JSON name of each field, from the struct tags. -/
def fieldNames : List (String × Field) :=
  [("vote", Field.Vote), ("voter_id", Field.VoterID), ("timestamp", Field.Timestamp)]

/-- Go's `foldRune` on the runes that matter for matching an ASCII field name:
ASCII lower case folds to upper case, and the two non-ASCII runes whose fold
orbit contains an ASCII letter (U+017F with `S`, U+212A with `K`) fold to that
letter. Every other rune folds to a non-ASCII rune and is left as it is. -/
def foldRune (c : Char) : Char :=
  if 97 ≤ c.toNat ∧ c.toNat ≤ 122 then Char.ofNat (c.toNat - 32)
  else if c.toNat = 0x17F then Char.ofNat 83
  else if c.toNat = 0x212A then Char.ofNat 75
  else c

/-- Go's `foldName`. -/
def foldName (s : String) : List Char := s.data.map foldRune

/-- The struct field an object key selects: an exact name match first, then a
match of the folded names (`byExactName`, `byFoldedName`). -/
def lookupField (key : String) : Option Field :=
  match fieldNames.find? (fun p => p.1 = key) with
  | some p => some p.2
  | none =>
    match fieldNames.find? (fun p => foldName p.1 = foldName key) with
    | some p => some p.2
    | none => none

/-- The errors of `json.Unmarshal`: a `SyntaxError` from `checkValid`, or the
first `UnmarshalTypeError` saved while storing (JSON kind, Go type). -/
inductive UnmarshalError where
  | syntaxError
  | typeError (value : String) (goType : String)
  deriving DecidableEq, Repr

/-- The decoder's progress: the struct being filled and `d.savedError`. -/
structure DecodeState where
  vote : Vote
  savedError : Option UnmarshalError

/-- Go's `saveError`: only the first error is kept. -/
def saveError (st : DecodeState) (e : UnmarshalError) : DecodeState :=
  match st.savedError with
  | none => { st with savedError := some e }
  | some _ => st

/-- Assign one string field. -/
def setField (v : Vote) (f : Field) (s : String) : Vote :=
  match f with
  | Field.Vote => { v with Vote := s }
  | Field.VoterID => { v with VoterID := s }
  | Field.Timestamp => { v with Timestamp := s }

/-- Store one object member. A key that selects no field is skipped. For a
string field, a JSON string is assigned, `null` leaves the field as it is, and
any other JSON value saves an `UnmarshalTypeError` and leaves the field as it is. -/
def storeMember (st : DecodeState) (kv : String × JValue) : DecodeState :=
  match lookupField kv.1 with
  | none => st
  | some f =>
    match kv.2 with
    | JValue.str s => { st with vote := setField st.vote f s }
    | JValue.null => st
    | JValue.bool _ => saveError st (UnmarshalError.typeError "bool" "string")
    | JValue.number _ => saveError st (UnmarshalError.typeError "number" "string")
    | JValue.arr _ => saveError st (UnmarshalError.typeError "array" "string")
    | JValue.obj _ => saveError st (UnmarshalError.typeError "object" "string")

/-- Store a JSON value into a `Vote` (Go's `d.value` at a struct): an object
stores its members in order, `null` is a no-op, any other value is a type error. -/
def storeValue (st : DecodeState) : JValue → DecodeState
  | JValue.obj members => members.foldl storeMember st
  | JValue.null => st
  | JValue.bool _ => saveError st (UnmarshalError.typeError "bool" "main.Vote")
  | JValue.number _ => saveError st (UnmarshalError.typeError "number" "main.Vote")
  | JValue.str _ => saveError st (UnmarshalError.typeError "string" "main.Vote")
  | JValue.arr _ => saveError st (UnmarshalError.typeError "array" "main.Vote")

/-- Read one string field. -/
def getField (v : Vote) : Field → String
  | Field.Vote => v.Vote
  | Field.VoterID => v.VoterID
  | Field.Timestamp => v.Timestamp

/-- Is the JSON value a string or `null`? -/
def JValue.isStringOrNull : JValue → Bool
  | JValue.str _ => true
  | JValue.null => true
  | _ => false

/-- Does some member of the object have a key that selects the field? -/
def namesField (members : List (String × JValue)) (f : Field) : Bool :=
  members.any (fun kv => lookupField kv.1 = some f)

/-- The zero value of `Vote`, as declared by `var vote Vote`. -/
def zeroVote : Vote := { Vote := "", VoterID := "", Timestamp := "" }

/-- The call `json.Unmarshal([]byte(voteData), &vote)` on a zero `vote`: the
input is checked for validity first, then stored; the result is the filled
struct when the returned error is nil and the error otherwise. -/
def Unmarshal (data : String) : Except UnmarshalError Vote :=
  match parseJSON data with
  | none => Except.error UnmarshalError.syntaxError
  | some j =>
    match (storeValue { vote := zeroVote, savedError := none } j).savedError with
    | some e => Except.error e
    | none => Except.ok (storeValue { vote := zeroVote, savedError := none } j).vote

end Json

/-! ## Timestamps (`time.Parse` and `parseTimestamp`) -/

namespace GoTime

/-- The location of a `time.Time`, as far as `parseTimestamp` can observe it:
the `time.UTC` location, or a location whose offset east of UTC at the instant
is the given number of seconds. `time.Parse` gives the latter to a time parsed
with a numeric zone offset (it is `time.Local` when the machine's zone has that
offset at that instant and a `FixedZone` otherwise; neither is `time.UTC`). -/
inductive Location where
  | UTC
  | zone (offset : Int)
  deriving DecidableEq, Repr

/-- A `time.Time`: an instant (seconds since 1970-01-01T00:00:00Z and
nanoseconds within the second) together with a location. -/
structure Time where
  unix : Int
  nsec : Nat
  loc : Location
  deriving DecidableEq, Repr

/-- The method `Time.Location`. -/
def Time.Location (t : Time) : Location := t.loc

/-- The method `Time.UTC`: the same instant with the location set to UTC. -/
def Time.UTC (t : Time) : Time := { t with loc := Location.UTC }

/-- Go's `isLeap`. -/
def isLeap (year : Nat) : Bool := year % 4 = 0 && (year % 100 ≠ 0 || year % 400 = 0)

/-- Go's `daysBefore` table: days in a non-leap year before the month `m + 1`. -/
def daysBefore : List Nat := [0, 31, 59, 90, 120, 151, 181, 212, 243, 273, 304, 334, 365]

/-- Go's `daysIn`. -/
def daysIn (month year : Nat) : Nat :=
  if month = 2 ∧ isLeap year then 29
  else daysBefore.getD month 0 - daysBefore.getD (month - 1) 0

/-- Days from 0000-01-01 to January 1st of `year` in the proleptic Gregorian calendar. -/
def daysBeforeYear (year : Nat) : Nat :=
  365 * year + (year + 3) / 4 - (year + 99) / 100 + (year + 399) / 400

/-- Days from 1970-01-01 to the given civil date. -/
def daysSinceEpoch (year month day : Nat) : Int :=
  (daysBeforeYear year + daysBefore.getD (month - 1) 0
      + (if 2 < month ∧ isLeap year then 1 else 0) + (day - 1) : Nat) - 719528

/-- Go's `time.Date` in UTC, for fields that are already in range. -/
def Date (year month day hour min sec nsec : Nat) : Time :=
  { unix := daysSinceEpoch year month day * 86400 + (hour * 3600 + min * 60 + sec : Nat),
    nsec := nsec,
    loc := Location.UTC }

/-- The layout elements that occur in the layouts of `parseTimestamp`. -/
inductive Std where
  | stdLongYear
  | stdZeroMonth
  | stdZeroDay
  | stdHour
  | stdZeroMinute
  | stdZeroSecond
  | stdFracSecond9 (digits : Nat)
  | stdISO8601ColonTZ
  deriving DecidableEq, Repr

/-- A layout string together with its decomposition by `nextStdChunk`: each
chunk is the literal text before an element and the element; no literal text
follows the last element in any layout used here. -/
structure Layout where
  text : String
  chunks : List (List Char × Std)

/-- The layout `time.RFC3339`. -/
def RFC3339 : Layout :=
  { text := "2006-01-02T15:04:05Z07:00",
    chunks := [([], Std.stdLongYear), (['-'], Std.stdZeroMonth), (['-'], Std.stdZeroDay),
      (['T'], Std.stdHour), ([':'], Std.stdZeroMinute), ([':'], Std.stdZeroSecond),
      ([], Std.stdISO8601ColonTZ)] }

/-- The layout `time.RFC3339Nano`. -/
def RFC3339Nano : Layout :=
  { text := "2006-01-02T15:04:05.999999999Z07:00",
    chunks := [([], Std.stdLongYear), (['-'], Std.stdZeroMonth), (['-'], Std.stdZeroDay),
      (['T'], Std.stdHour), ([':'], Std.stdZeroMinute), ([':'], Std.stdZeroSecond),
      ([], Std.stdFracSecond9 9), ([], Std.stdISO8601ColonTZ)] }

/-- The layout `"2006-01-02T15:04:05.999999"` (Python `isoformat()` without timezone). -/
def layoutMicro : Layout :=
  { text := "2006-01-02T15:04:05.999999",
    chunks := [([], Std.stdLongYear), (['-'], Std.stdZeroMonth), (['-'], Std.stdZeroDay),
      (['T'], Std.stdHour), ([':'], Std.stdZeroMinute), ([':'], Std.stdZeroSecond),
      ([], Std.stdFracSecond9 6)] }

/-- The layout `"2006-01-02T15:04:05"` (without microseconds and timezone). -/
def layoutSeconds : Layout :=
  { text := "2006-01-02T15:04:05",
    chunks := [([], Std.stdLongYear), (['-'], Std.stdZeroMonth), (['-'], Std.stdZeroDay),
      (['T'], Std.stdHour), ([':'], Std.stdZeroMinute), ([':'], Std.stdZeroSecond)] }

/-- The layout `time.DateTime`. -/
def DateTime : Layout :=
  { text := "2006-01-02 15:04:05",
    chunks := [([], Std.stdLongYear), (['-'], Std.stdZeroMonth), (['-'], Std.stdZeroDay),
      ([' '], Std.stdHour), ([':'], Std.stdZeroMinute), ([':'], Std.stdZeroSecond)] }

/-- Go's `isDigit(s, 0)` on the head of the input. -/
def isDigit (c : Char) : Bool := 48 ≤ c.toNat && c.toNat ≤ 57

/-- Value of a decimal digit. -/
def digitVal (c : Char) : Nat := c.toNat - 48

/-- Go's `commaOrPeriod`. -/
def commaOrPeriod (c : Char) : Bool := c.toNat = 46 || c.toNat = 44

/-- Go's `cutspace`: drop leading spaces. -/
def cutspace : List Char → List Char
  | [] => []
  | c :: cs => if c.toNat = 32 then cutspace cs else c :: cs

/-- Go's `skip`: remove the literal text `pfx` from the front of `value`. A
space in the literal matches any run of spaces, also an empty one at the end
of the input. The first argument is fuel. -/
def skipFuel : Nat → List Char → List Char → Option (List Char)
  | 0, _, _ => none
  | _ + 1, value, [] => some value
  | fuel + 1, value, p :: ps =>
    if p.toNat = 32 then
      match value with
      | v :: vs =>
        if v.toNat ≠ 32 then none
        else skipFuel fuel (cutspace (v :: vs)) (cutspace (p :: ps))
      | [] => skipFuel fuel [] (cutspace (p :: ps))
    else
      match value with
      | [] => none
      | v :: vs => if v = p then skipFuel fuel vs ps else none

/-- Go's `skip`. -/
def skip (value pfx : List Char) : Option (List Char) := skipFuel (pfx.length + 1) value pfx

/-- Go's `getnum`: one or two leading digits (exactly two when `fixed`). -/
def getnum (s : List Char) (fixed : Bool) : Option (Nat × List Char) :=
  match s with
  | [] => none
  | c0 :: rest =>
    if isDigit c0 then
      match rest with
      | [] => if fixed then none else some (digitVal c0, [])
      | c1 :: rest1 =>
        if isDigit c1 then some (digitVal c0 * 10 + digitVal c1, rest1)
        else if fixed then none
        else some (digitVal c0, c1 :: rest1)
    else none

/-- The number that a list of decimal digits writes. -/
def decimal (s : List Char) : Nat := s.foldl (fun acc c => acc * 10 + digitVal c) 0

/-- The number written by a list of digits (Go's `atoi` on an unsigned digit string). -/
def atoi (s : List Char) : Option Nat :=
  if s.all isDigit then some (s.foldl (fun acc c => acc * 10 + digitVal c) 0) else none

/-- Go's `parseNanoseconds(value, nbytes)` where `value` starts with a comma or
period followed by `digits`, and `nbytes = 1 + digits.length`: at most nine
digits are read and scaled to nanoseconds. -/
def parseNanoseconds (digits : List Char) : Option Nat :=
  match atoi (digits.take 9) with
  | some ns => some (ns * 10 ^ (9 - (digits.take 9).length))
  | none => none

/-- The maximal run of leading digits and what follows it. -/
def spanDigits : List Char → List Char × List Char
  | [] => ([], [])
  | c :: cs => if isDigit c then (c :: (spanDigits cs).1, (spanDigits cs).2) else ([], c :: cs)

/-- The variables of Go's `parse` ("Time being constructed"). -/
structure ParseState where
  year : Nat
  month : Nat
  day : Nat
  hour : Nat
  min : Nat
  sec : Nat
  nsec : Nat
  z : Option Location
  zoneOffset : Int

/-- The initial values. Month and day start at -1 in Go and are set to 1 when no
layout element supplies them; every layout here supplies both. -/
def ParseState.init : ParseState :=
  { year := 0, month := 1, day := 1, hour := 0, min := 0, sec := 0, nsec := 0,
    z := none, zoneOffset := -1 }

/-- A fractional second at the head of the input, a comma or period followed
by at least one digit, is consumed whole (Go takes "any number of digits"). -/
def parseFraction (st : ParseState) (value : List Char) : Option (ParseState × List Char) :=
  match value with
  | c :: d :: rest =>
    if commaOrPeriod c ∧ isDigit d then
      match parseNanoseconds (spanDigits (d :: rest)).1 with
      | some ns => some ({ st with nsec := ns }, (spanDigits (d :: rest)).2)
      | none => none
    else some (st, value)
  | _ => some (st, value)

/-- Is the layout element a fractional second? -/
def Std.isFrac : Option Std → Bool
  | some (Std.stdFracSecond9 _) => true
  | _ => false

/-- One turn of the `switch std & stdMask` of Go's `parse`: read the element
`std` from the front of `value`. `next` is the element that follows in the
layout (`nextStdChunk(layout)` in the seconds case). `none` stands for either a
range error or a syntax error. -/
def parseStd (std : Std) (next : Option Std) (st : ParseState) (value : List Char) :
    Option (ParseState × List Char) :=
  match std with
  | Std.stdLongYear =>
    match value with
    | c0 :: c1 :: c2 :: c3 :: rest =>
      if isDigit c0 then
        match atoi [c0, c1, c2, c3] with
        | some y => some ({ st with year := y }, rest)
        | none => none
      else none
    | _ => none
  | Std.stdZeroMonth =>
    match getnum value true with
    | some (m, rest) => if m = 0 ∨ 12 < m then none else some ({ st with month := m }, rest)
    | none => none
  | Std.stdZeroDay =>
    match getnum value true with
    | some (d, rest) => some ({ st with day := d }, rest)
    | none => none
  | Std.stdHour =>
    match getnum value false with
    | some (h, rest) => if 24 ≤ h then none else some ({ st with hour := h }, rest)
    | none => none
  | Std.stdZeroMinute =>
    match getnum value true with
    | some (m, rest) => if 60 ≤ m then none else some ({ st with min := m }, rest)
    | none => none
  | Std.stdZeroSecond =>
    match getnum value true with
    | some (s, rest) =>
      if 60 ≤ s then none
      else if Std.isFrac next then some ({ st with sec := s }, rest)
      else parseFraction { st with sec := s } rest
    | none => none
  | Std.stdFracSecond9 _ => parseFraction st value
  | Std.stdISO8601ColonTZ =>
    match value with
    | [] => none
    | c :: rest =>
      if c.toNat = 90 then some ({ st with z := some Location.UTC }, rest)
      else
        match c :: rest with
        | sign :: h0 :: h1 :: colon :: m0 :: m1 :: rest1 =>
          if colon.toNat ≠ 58 then none
          else
            match getnum [h0, h1] true, getnum [m0, m1] true with
            | some (hr, _), some (mm, _) =>
              if 24 < hr ∨ 60 < mm then none
              else if sign.toNat = 43 then
                some ({ st with zoneOffset := ((hr * 60 + mm) * 60 : Nat) }, rest1)
              else if sign.toNat = 45 then
                some ({ st with zoneOffset := -((hr * 60 + mm) * 60 : Nat) }, rest1)
              else none
            | _, _ => none
        | _ => none

/-- The main loop of Go's `parse`: for each chunk, skip the literal text, then
read the element; at the end of the layout no input may remain. -/
def parseChunks : List (List Char × Std) → ParseState → List Char → Option ParseState
  | [], st, value => if value = [] then some st else none
  | (pfx, std) :: rest, st, value =>
    match skip value pfx with
    | none => none
    | some value1 =>
      match parseStd std (rest.head?.map Prod.snd) st value1 with
      | none => none
      | some (st1, value2) => parseChunks rest st1 value2

/-- Go's `time.Parse(layout, value)`; `none` stands for a non-nil error. After
the loop the day of the month is validated and the time is built: in UTC when
the input carried `Z` or no zone, and otherwise at the instant obtained by
subtracting the parsed offset, in a location with that offset. -/
def Parse (layout : Layout) (value : String) : Option Time :=
  match parseChunks layout.chunks ParseState.init value.data with
  | none => none
  | some st =>
    if st.day < 1 ∨ daysIn st.month st.year < st.day then none
    else
      match st.z with
      | some _ => some (Date st.year st.month st.day st.hour st.min st.sec st.nsec)
      | none =>
        if st.zoneOffset ≠ -1 then
          some { unix := (Date st.year st.month st.day st.hour st.min st.sec st.nsec).unix
                    - st.zoneOffset,
                 nsec := st.nsec,
                 loc := Location.zone st.zoneOffset }
        else some (Date st.year st.month st.day st.hour st.min st.sec st.nsec)

/-- List of formats to try, in order of preference. -/
def formats : List Layout := [RFC3339, RFC3339Nano, layoutMicro, layoutSeconds, DateTime]

/-- The `for _, format := range formats` loop of `parseTimestamp`. -/
def parseTimestampLoop : List Layout → String → Except String Time
  | [], timestampStr => Except.error ("unable to parse timestamp: " ++ timestampStr)
  | format :: rest, timestampStr =>
    match Parse format timestampStr with
    | some t =>
      if t.Location = Location.UTC ∧ format.text ≠ RFC3339.text
          ∧ format.text ≠ RFC3339Nano.text then
        Except.ok t.UTC
      else Except.ok t
    | none => parseTimestampLoop rest timestampStr

/-- The function `parseTimestamp` attempts to parse timestamp in multiple formats. -/
def parseTimestamp (timestampStr : String) : Except String Time :=
  parseTimestampLoop formats timestampStr

/-- The offset east of UTC, in seconds, that the location has at the time's instant. -/
def Location.offset : Location → Int
  | Location.UTC => 0
  | Location.zone offset => offset

/-- Seconds from 0000-01-01T00:00:00 to the wall-clock reading of the time in
its own location (the role of Go's `abs`). -/
def Time.localSeconds (t : Time) : Int := t.unix + t.loc.offset + 719528 * 86400

/-- Days from 0000-01-01 to the day of the wall-clock reading. -/
def Time.dayNumber (t : Time) : Nat := (t.localSeconds / 86400).toNat

/-- Seconds since midnight of the wall-clock reading. -/
def Time.secondOfDay (t : Time) : Nat := (t.localSeconds % 86400).toNat

/-- The year that contains day `n` (counted from 0000-01-01): the greatest year
that starts on or before that day. Go reaches the same year through 400-, 100-
and 4-year cycles. -/
def yearOfDay (n : Nat) : Nat := Nat.findGreatest (fun y => daysBeforeYear y ≤ n) (n / 365)

/-- Days of the year before the first of the month, in the given year. -/
def daysBeforeMonth (year month : Nat) : Nat :=
  daysBefore.getD (month - 1) 0 + (if 2 < month ∧ isLeap year then 1 else 0)

/-- The method `Time.Year`, for times from year 0 on. -/
def Time.Year (t : Time) : Nat := yearOfDay t.dayNumber

/-- The method `Time.YearDay` minus one: days since January 1st. -/
def Time.yday (t : Time) : Nat := t.dayNumber - daysBeforeYear t.Year

/-- The month that contains the day `yday` (counted from January 1st) of the
year: the last month that starts on or before that day. -/
def monthOfYearDay (year yday : Nat) : Nat :=
  Nat.findGreatest (fun m => daysBeforeMonth year m ≤ yday) 12

/-- The method `Time.Month`. -/
def Time.Month (t : Time) : Nat := monthOfYearDay t.Year t.yday

/-- The method `Time.Day`. -/
def Time.Day (t : Time) : Nat := t.yday - daysBeforeMonth t.Year t.Month + 1

/-- The method `Time.Hour`. -/
def Time.Hour (t : Time) : Nat := t.secondOfDay / 3600

/-- The method `Time.Minute`. -/
def Time.Minute (t : Time) : Nat := t.secondOfDay % 3600 / 60

/-- The method `Time.Second`. -/
def Time.Second (t : Time) : Nat := t.secondOfDay % 60

/-- The method `Time.Nanosecond`. -/
def Time.Nanosecond (t : Time) : Nat := t.nsec

/-- The character of a decimal digit. -/
def digitChar (d : Nat) : Char := Char.ofNat (48 + d)

/-- The last `width` decimal digits of `x`, with leading zeros. -/
def padded : Nat → Nat → List Char
  | 0, _ => []
  | width + 1, x => padded width (x / 10) ++ [digitChar (x % 10)]

/-- Go's `appendInt(b, x, width)` for a non-negative `x`: the decimal digits of
`x`, padded with zeros to at least `width` digits. -/
def appendInt (x width : Nat) : List Char :=
  if x < 10 ^ width then padded width x else Nat.toDigits 10 x

/-- Remove trailing zeros. -/
def trimZeros (ds : List Char) : List Char :=
  (ds.reverse.dropWhile (fun c => c.toNat = 48)).reverse

/-- Go's `appendNano` for the element `.999…` with `n` nines: the first `n`
digits of the nanoseconds without trailing zeros, after a period; nothing when
no digit is left. -/
def appendNano (nanosec n : Nat) : List Char :=
  if trimZeros ((padded 9 nanosec).take n) = [] then []
  else Char.ofNat 46 :: trimZeros ((padded 9 nanosec).take n)

/-- What `Time.Format` writes for one layout element. The zone is `Z` for
offset zero and otherwise a sign, two digits of hours, a colon and two digits
of minutes, the offset being cut to whole minutes towards zero. -/
def formatStd (t : Time) : Std → List Char
  | Std.stdLongYear => appendInt t.Year 4
  | Std.stdZeroMonth => appendInt t.Month 2
  | Std.stdZeroDay => appendInt t.Day 2
  | Std.stdHour => appendInt t.Hour 2
  | Std.stdZeroMinute => appendInt t.Minute 2
  | Std.stdZeroSecond => appendInt t.Second 2
  | Std.stdFracSecond9 n => appendNano t.Nanosecond n
  | Std.stdISO8601ColonTZ =>
    if t.loc.offset = 0 then [Char.ofNat 90]
    else
      (if t.loc.offset.tdiv 60 < 0 then Char.ofNat 45 else Char.ofNat 43)
        :: (appendInt ((t.loc.offset.tdiv 60).natAbs / 60) 2
          ++ Char.ofNat 58 :: appendInt ((t.loc.offset.tdiv 60).natAbs % 60) 2)

/-- The text `Time.Format` writes for a chunked layout. -/
def formatChunks (t : Time) : List (List Char × Std) → List Char
  | [] => []
  | (pfx, std) :: rest => pfx ++ (formatStd t std ++ formatChunks t rest)

/-- The method `Time.Format(layout)`, for the layouts of this program and
times from year 0 on. -/
def Time.Format (t : Time) (layout : Layout) : String := String.mk (formatChunks t layout.chunks)

/-- The order of the formats as the specification lists it: the zoned layout
with fractional seconds first. -/
def specOrder : List Layout := [RFC3339Nano, RFC3339, layoutMicro, layoutSeconds, DateTime]

/-- A reference reading of the format loop, independent of `parseTimestampLoop`:
the parse produced by the first format, in the given order, that accepts the
string. -/
def firstAccepted (order : List Layout) (timestampStr : String) : Option Time :=
  (order.filterMap (fun format => Parse format timestampStr)).head?

/-- The list of formats without `RFC3339Nano` and without the zoneless layout
that has no fraction. -/
def formatsReduced : List Layout := [RFC3339, layoutMicro, DateTime]

end GoTime

/-! ## The worker (`processVotes`) -/

namespace Worker

open Json GoTime

/-- Configuration from environment variables; only the queue key matters to `processVotes`. -/
structure Config where
  VoteQueue : String

/-- The values bound by `INSERT INTO votes (vote, voter_id, timestamp) VALUES (?, ?, ?)`.
The columns `id` and `created_at` are assigned by the database. -/
structure Row where
  vote : String
  voter_id : String
  timestamp : Time
  deriving DecidableEq, Repr

/-- Everything `processVotes` reads or writes. `redis` maps a key to its list,
head (left end) first. `votes` is the table in insertion order. The counters
are the Prometheus metrics; `processTime` counts the observations of the
histogram. `execLog` and `lpushLog` record the arguments of every `db.Exec`
and `LPush` call issued, whatever its outcome. -/
structure World where
  redis : String → List String
  votes : List Row
  votesProcessed : String → Nat
  redisErrors : Nat
  dbErrors : Nat
  healthChecks : String → Nat
  processTime : Nat
  execLog : List Row
  lpushLog : List (String × String)

/-- What the outside world answers during one iteration: whether `BRPop` fails
with an error other than `redis.Nil`, the value of `time.Now()`, whether
`db.Exec` returns an error, and whether `LPush` fails. -/
structure Outcomes where
  brpopErr : Bool
  now : Time
  execErr : Bool
  lpushErr : Bool

/-- The three results of `BRPop(...).Result()`: `redis.Nil` after the timeout,
another error, or the pair of key and value. -/
inductive BRPopResult where
  | Nil
  | err
  | ok (result : List String)
  deriving DecidableEq, Repr

/-- The command `BRPOP key timeout`: take the element at the tail (right end)
of the list. A failed command leaves the list as it is. -/
def BRPop (fails : Bool) (redis : String → List String) (key : String) :
    BRPopResult × (String → List String) :=
  if fails then (BRPopResult.err, redis)
  else
    match (redis key).getLast? with
    | none => (BRPopResult.Nil, redis)
    | some v => (BRPopResult.ok [key, v], Function.update redis key (redis key).dropLast)

/-- The command `LPUSH key value`: insert at the head (left end) of the list.
A failed command leaves the list as it is. -/
def LPush (fails : Bool) (redis : String → List String) (key value : String) :
    String → List String :=
  if fails then redis else Function.update redis key (value :: redis key)

/-- Add one to the counter with the given label (`WithLabelValues(label).Inc()`). -/
def incLabel (counter : String → Nat) (label : String) : String → Nat :=
  Function.update counter label (counter label + 1)

/-- The timestamp bound by the insert: the parsed value, or `time.Now()` when
`parseTimestamp` returns an error. -/
def resolveTimestamp (now : Time) (timestampStr : String) : Time :=
  match parseTimestamp timestampStr with
  | Except.ok t => t
  | Except.error _ => now

/-- The insert and what follows it in `processVotes`, for a decoded vote. On
an error: `dbErrors.Inc()` and the raw payload is pushed back with `LPush`. On
success: the row is in the table and `votesProcessed` is incremented for the
vote. Either way the timer is observed. -/
def insertVote (config : Config) (o : Outcomes) (w : World) (voteData : String) (vote : Vote) :
    World :=
  if o.execErr then
    { w with
      execLog := w.execLog ++ [⟨vote.Vote, vote.VoterID, resolveTimestamp o.now vote.Timestamp⟩],
      dbErrors := w.dbErrors + 1,
      lpushLog := w.lpushLog ++ [(config.VoteQueue, voteData)],
      redis := LPush o.lpushErr w.redis config.VoteQueue voteData,
      processTime := w.processTime + 1 }
  else
    { w with
      execLog := w.execLog ++ [⟨vote.Vote, vote.VoterID, resolveTimestamp o.now vote.Timestamp⟩],
      votes := w.votes ++ [⟨vote.Vote, vote.VoterID, resolveTimestamp o.now vote.Timestamp⟩],
      votesProcessed := incLabel w.votesProcessed vote.Vote,
      processTime := w.processTime + 1 }

/-- One iteration of the `for` loop of `processVotes` (the `default:` branch of
the `select`). -/
def processVotesStep (config : Config) (o : Outcomes) (w : World) : World :=
  match BRPop o.brpopErr w.redis config.VoteQueue with
  | (BRPopResult.Nil, _) => w
  | (BRPopResult.err, _) => { w with redisErrors := w.redisErrors + 1 }
  | (BRPopResult.ok result, redis1) =>
    if result.length < 2 then { w with redis := redis1 }
    else
      match Unmarshal (result.getD 1 "") with
      | Except.error _ => { w with redis := redis1 }
      | Except.ok vote => insertVote config o { w with redis := redis1 } (result.getD 1 "") vote

/-- The loop of `processVotes`: one iteration per element of the list, until
the context is cancelled (the list is exhausted). -/
def processVotes (config : Config) : List Outcomes → World → World
  | [], w => w
  | o :: os, w => processVotes config os (processVotesStep config o w)

/-- The payload that the next `BRPop` of `processVotes` returns when the command succeeds. -/
def nextDequeue (config : Config) (w : World) : Option String :=
  match (BRPop false w.redis config.VoteQueue).1 with
  | BRPopResult.ok result => some (result.getD 1 "")
  | _ => none

/-- What the outside world answers during one health check: the value of
`time.Now()`, and the error message of the Redis ping and of the database
ping (`none` when the ping succeeds). -/
structure PingOutcomes where
  now : Time
  redisErr : Option String
  dbErr : Option String

/-- What one call of `healthCheck` does: the response header, the status code
passed to `WriteHeader`, the entries of the `health` map in the order they are
set (the encoded body), the dependencies pinged, in order, and the world with
the `healthChecks` counter updated. -/
structure HealthResult where
  header : List (String × String)
  statusCode : Nat
  health : List (String × String)
  pings : List String
  world : World

/-- The entries `healthCheck` sets for one dependency. -/
def pingEntries (name : String) (err : Option String) : List (String × String) :=
  match err with
  | some msg => [(name, "disconnected"), (name ++ "_error", msg)]
  | none => [(name, "connected")]

/-- The function `healthCheck` handles the health check endpoint. -/
def healthCheck (p : PingOutcomes) (w : World) : HealthResult :=
  if p.redisErr.isSome ∨ p.dbErr.isSome then
    { header := [("Content-Type", "application/json")],
      statusCode := 503,
      health := [("service", "worker"), ("timestamp", p.now.Format RFC3339)]
        ++ pingEntries "redis" p.redisErr ++ pingEntries "database" p.dbErr
        ++ [("status", "unhealthy")],
      pings := ["redis", "database"],
      world := { w with healthChecks := incLabel w.healthChecks "unhealthy" } }
  else
    { header := [("Content-Type", "application/json")],
      statusCode := 200,
      health := [("service", "worker"), ("timestamp", p.now.Format RFC3339)]
        ++ pingEntries "redis" p.redisErr ++ pingEntries "database" p.dbErr
        ++ [("status", "healthy")],
      pings := ["redis", "database"],
      world := { w with healthChecks := incLabel w.healthChecks "healthy" } }

/-- What happens around the single consumer: a producer pushes a payload with
`LPush` (as the tests and the load generator do), or the worker runs one iteration. -/
inductive Event where
  | push (payload : String)
  | iterate (o : Outcomes)

/-- The effect of one event. -/
def runEvent (config : Config) (w : World) : Event → World
  | Event.push payload => { w with redis := LPush false w.redis config.VoteQueue payload }
  | Event.iterate o => processVotesStep config o w

/-- The effect of a sequence of events. -/
def run (config : Config) (events : List Event) (w : World) : World :=
  events.foldl (runEvent config) w

/-- The payloads pushed by the producers, in order. -/
def pushed : List Event → List String
  | [] => []
  | Event.push payload :: es => payload :: pushed es
  | Event.iterate _ :: es => pushed es

/-- The outcomes of the worker iterations among the events. -/
def iterations : List Event → List Outcomes
  | [] => []
  | Event.push _ :: es => iterations es
  | Event.iterate o :: es => o :: iterations es

/-- Does the payload decode, to a vote whose choice satisfies `P`? -/
def decodesWith (P : String → Bool) (payload : String) : Bool :=
  match Unmarshal payload with
  | Except.ok vote => P vote.Vote
  | Except.error _ => false

/-- Does `json.Unmarshal` return a nil error on the payload? -/
def decodes (payload : String) : Bool := decodesWith (fun _ => true) payload

/-- Does the payload decode to a vote for the choice `c`? -/
def decodesTo (c : String) (payload : String) : Bool := decodesWith (fun v => v = c) payload

/-- Is the payload a syntactically valid JSON text (Go's `json.Valid`)? -/
def validJSON (payload : String) : Bool := (parseJSON payload).isSome

/-- Is the payload valid JSON that lacks at least one of the fields `vote`,
`voter_id`, `timestamp`: an object without a member for one of them, or a
value that is not an object at all? -/
def lacksField (payload : String) : Bool :=
  match parseJSON payload with
  | none => false
  | some (JValue.obj members) =>
    !(namesField members Field.Vote && namesField members Field.VoterID
      && namesField members Field.Timestamp)
  | some _ => true

/-- A world with empty queue and table and all counters at zero. -/
def emptyWorld : World :=
  { redis := fun _ => [], votes := [], votesProcessed := fun _ => 0, redisErrors := 0,
    dbErrors := 0, healthChecks := fun _ => 0, processTime := 0, execLog := [], lpushLog := [] }

/-- The queue key used in the examples (the default of `VOTE_QUEUE`). -/
def votesConfig : Config := { VoteQueue := "votes" }

/-- The empty world with the given payloads in the queue `votes`, head first. -/
def worldWithQueue (payloads : List String) : World :=
  { emptyWorld with redis := fun k => if k = "votes" then payloads else [] }

/-- The instant 2024-06-01T12:00:00Z, used as the clock reading in the examples. -/
def noon : Time := { unix := 1717243200, nsec := 0, loc := Location.zone 0 }

/-- All external calls succeed. -/
def allOk : Outcomes := { brpopErr := false, now := noon, execErr := false, lpushErr := false }

/-- `BRPop` fails with a connection error. -/
def popFails : Outcomes := { brpopErr := true, now := noon, execErr := false, lpushErr := false }

/-- The insert fails; the requeue push succeeds. -/
def insertFails : Outcomes := { brpopErr := false, now := noon, execErr := true, lpushErr := false }

/-- The insert fails and the requeue push fails too. -/
def insertAndPushFail : Outcomes :=
  { brpopErr := false, now := noon, execErr := true, lpushErr := true }

/-- A well-formed vote payload, the first scenario of the specification. -/
def catsPayload : String :=
  "\x7b\"vote\":\"cats\",\"voter_id\":\"v1\",\"timestamp\":\"2024-01-01T10:00:00Z\"\x7d"

/-- A payload with the field `vote` only. -/
def voteOnlyPayload : String := "\x7b\"vote\":\"cats\"\x7d"

/-- A payload that is valid JSON but gives the field `vote` a number. -/
def numberVotePayload : String :=
  "\x7b\"vote\":1,\"voter_id\":\"v1\",\"timestamp\":\"2024-01-01T10:00:00Z\"\x7d"

/-- The time 2024-01-01T10:00:00Z. -/
def tenOClock : Time := { unix := 1704103200, nsec := 0, loc := Location.UTC }

/-- The same instant as `tenOClock`, read in a zone twenty-five hours east of UTC. -/
def tenOClockFarEast : Time := { unix := 1704103200, nsec := 0, loc := Location.zone 90000 }

/-- A zoneless timestamp with ten fraction digits. -/
def longFractionStamp : String := "2024-01-01T10:00:00.1234567891"

/-- A decodable payload whose timestamp no layout accepts. -/
def badTimePayload : String :=
  "\x7b\"vote\":\"dogs\",\"voter_id\":\"v2\",\"timestamp\":\"yesterday\"\x7d"

end Worker

namespace GoTime

/-! ## Lemmas about the calendar -/

/-- Go's leap-year rule, as a proposition. -/
theorem isLeap_iff (y : Nat) :
    isLeap y = true ↔ (y % 4 = 0 ∧ (y % 100 ≠ 0 ∨ y % 400 = 0)) := by
  simp [isLeap]

/-- A year has 365 days, or 366 when it is a leap year. -/
theorem daysBeforeYear_succ (y : Nat) :
    daysBeforeYear (y + 1) = daysBeforeYear y + 365 + (if isLeap y = true then 1 else 0) := by
  have hd : ∀ k : Nat, daysBeforeYear k
      = 365 * k + (k + 3) / 4 - (k + 99) / 100 + (k + 399) / 400 := fun _ => rfl
  have a4 : (y + 1 + 3) / 4 = (y + 3) / 4 + (if y % 4 = 0 then 1 else 0) := by
    split <;> omega
  have a100 : (y + 1 + 99) / 100 = (y + 99) / 100 + (if y % 100 = 0 then 1 else 0) := by
    split <;> omega
  have a400 : (y + 1 + 399) / 400 = (y + 399) / 400 + (if y % 400 = 0 then 1 else 0) := by
    split <;> omega
  have hle : (y + 99) / 100 ≤ (y + 3) / 4 := by omega
  have h1 : y % 400 = 0 → y % 100 = 0 := by omega
  have h2 : y % 100 = 0 → y % 4 = 0 := by omega
  have hl := isLeap_iff y
  rw [hd, hd, a4, a100, a400]
  clear a4 a100 a400 hd
  generalize (y + 3) / 4 = b4 at *
  generalize (y + 99) / 100 = b100 at *
  generalize (y + 399) / 400 = b400 at *
  by_cases h4 : y % 4 = 0
  · by_cases h100 : y % 100 = 0
    · by_cases h400 : y % 400 = 0
      · rw [if_pos h4, if_pos h100, if_pos h400, if_pos (hl.2 ⟨h4, Or.inr h400⟩)]
        omega
      · rw [if_pos h4, if_pos h100, if_neg h400,
          if_neg (fun h => (hl.1 h).2.elim (fun h5 => h5 h100) h400)]
        omega
    · have h400 : ¬ y % 400 = 0 := fun h => h100 (h1 h)
      rw [if_pos h4, if_neg h100, if_neg h400, if_pos (hl.2 ⟨h4, Or.inl h100⟩)]
      omega
  · have h100 : ¬ y % 100 = 0 := fun h => h4 (h2 h)
    have h400 : ¬ y % 400 = 0 := fun h => h100 (h1 h)
    rw [if_neg h4, if_neg h100, if_neg h400, if_neg (fun h => h4 (hl.1 h).1)]
    omega

/-- Later years start later. -/
theorem daysBeforeYear_mono {a b : Nat} (h : a ≤ b) : daysBeforeYear a ≤ daysBeforeYear b := by
  induction b with
  | zero => simp at h; subst h; exact le_refl _
  | succ b ih =>
    rcases Nat.lt_or_ge a (b + 1) with hlt | hge
    · have := ih (by omega)
      rw [daysBeforeYear_succ]; omega
    · have : a = b + 1 := by omega
      subst this; exact le_refl _

/-- A year starts at least 365 days after the one before. -/
theorem daysBeforeYear_ge (y : Nat) : 365 * y ≤ daysBeforeYear y := by
  unfold daysBeforeYear; omega

/-- The year of a day starts on or before the day, and the next year starts after it. -/
theorem yearOfDay_spec (n : Nat) :
    daysBeforeYear (yearOfDay n) ≤ n ∧ n < daysBeforeYear (yearOfDay n + 1) := by
  constructor
  · exact Nat.findGreatest_spec (P := fun y => daysBeforeYear y ≤ n) (Nat.zero_le _)
      (by simp [daysBeforeYear])
  · by_cases hb : yearOfDay n + 1 ≤ n / 365
    · have := Nat.findGreatest_is_greatest (P := fun y => daysBeforeYear y ≤ n)
        (Nat.lt_succ_self (yearOfDay n)) hb
      simpa using this
    · have h1 := daysBeforeYear_ge (yearOfDay n + 1)
      have h2 : n / 365 < yearOfDay n + 1 := by omega
      have h3 : n < 365 * (yearOfDay n + 1) := by
        have := Nat.lt_of_div_lt_div (a := n) (b := 365 * (yearOfDay n + 1)) (c := 365)
          (by rw [Nat.mul_div_cancel_left _ (by norm_num : 0 < 365)]; exact h2)
        exact this
      omega

/-- The year of a day is the only year that contains it. -/
theorem yearOfDay_eq (n y : Nat) (h1 : daysBeforeYear y ≤ n) (h2 : n < daysBeforeYear (y + 1)) :
    yearOfDay n = y := by
  obtain ⟨h3, h4⟩ := yearOfDay_spec n
  rcases Nat.lt_trichotomy (yearOfDay n) y with hlt | heq | hgt
  · have := daysBeforeYear_mono (show yearOfDay n + 1 ≤ y by omega); omega
  · exact heq
  · have := daysBeforeYear_mono (show y + 1 ≤ yearOfDay n by omega); omega

/-- The days before each month, with the leap day counted from March on. -/
theorem daysBeforeMonth_table (y : Nat) :
    daysBeforeMonth y 1 = 0 ∧ daysBeforeMonth y 2 = 31
    ∧ daysBeforeMonth y 3 = 59 + (if isLeap y = true then 1 else 0)
    ∧ daysBeforeMonth y 4 = 90 + (if isLeap y = true then 1 else 0)
    ∧ daysBeforeMonth y 5 = 120 + (if isLeap y = true then 1 else 0)
    ∧ daysBeforeMonth y 6 = 151 + (if isLeap y = true then 1 else 0)
    ∧ daysBeforeMonth y 7 = 181 + (if isLeap y = true then 1 else 0)
    ∧ daysBeforeMonth y 8 = 212 + (if isLeap y = true then 1 else 0)
    ∧ daysBeforeMonth y 9 = 243 + (if isLeap y = true then 1 else 0)
    ∧ daysBeforeMonth y 10 = 273 + (if isLeap y = true then 1 else 0)
    ∧ daysBeforeMonth y 11 = 304 + (if isLeap y = true then 1 else 0)
    ∧ daysBeforeMonth y 12 = 334 + (if isLeap y = true then 1 else 0)
    ∧ daysBeforeMonth y 13 = 365 + (if isLeap y = true then 1 else 0) := by
  cases hl : isLeap y <;> simp [daysBeforeMonth, daysBefore, hl]

/-- The next month starts `daysIn` days after the month. -/
theorem daysBeforeMonth_succ (y m : Nat) (h1 : 1 ≤ m) (h12 : m ≤ 12) :
    daysBeforeMonth y (m + 1) = daysBeforeMonth y m + daysIn m y ∧ 28 ≤ daysIn m y := by
  interval_cases m <;> cases hl : isLeap y <;> simp [daysBeforeMonth, daysBefore, daysIn, hl]

/-- Later months start later. -/
theorem daysBeforeMonth_mono (y : Nat) {a b : Nat} (ha : 1 ≤ a) (hab : a ≤ b) (hb : b ≤ 13) :
    daysBeforeMonth y a ≤ daysBeforeMonth y b := by
  induction b with
  | zero => omega
  | succ b ih =>
    rcases Nat.lt_or_ge a (b + 1) with hlt | hge
    · have h1 := ih (by omega) (by omega)
      have h2 := (daysBeforeMonth_succ y b (by omega) (by omega)).1
      omega
    · have : a = b + 1 := by omega
      subst this; exact le_refl _

/-- The month of a day of the year is the only month that contains it. -/
theorem monthOfYearDay_eq (y yd m : Nat) (h1 : 1 ≤ m) (h12 : m ≤ 12)
    (hlo : daysBeforeMonth y m ≤ yd) (hhi : yd < daysBeforeMonth y (m + 1)) :
    monthOfYearDay y yd = m := by
  unfold monthOfYearDay
  rw [Nat.findGreatest_eq_iff]
  refine ⟨h12, fun _ => hlo, ?_⟩
  intro n hmn hn hP
  have := daysBeforeMonth_mono y (show 1 ≤ m + 1 by omega) (show m + 1 ≤ n by omega)
    (show n ≤ 13 by omega)
  omega

/-- The month of a day of the year contains that day. -/
theorem monthOfYearDay_spec (y yd : Nat) (h : yd < daysBeforeMonth y 13) :
    1 ≤ monthOfYearDay y yd ∧ monthOfYearDay y yd ≤ 12
    ∧ daysBeforeMonth y (monthOfYearDay y yd) ≤ yd
    ∧ yd < daysBeforeMonth y (monthOfYearDay y yd + 1) := by
  have hP1 : daysBeforeMonth y 1 ≤ yd := by rw [(daysBeforeMonth_table y).1]; exact Nat.zero_le _
  have hle : monthOfYearDay y yd ≤ 12 := Nat.findGreatest_le 12
  have hge : 1 ≤ monthOfYearDay y yd :=
    Nat.le_findGreatest (P := fun m => daysBeforeMonth y m ≤ yd) (by norm_num) hP1
  have hspec : daysBeforeMonth y (monthOfYearDay y yd) ≤ yd :=
    Nat.findGreatest_spec (P := fun m => daysBeforeMonth y m ≤ yd) (by norm_num : 1 ≤ 12) hP1
  refine ⟨hge, hle, hspec, ?_⟩
  by_cases h12 : monthOfYearDay y yd = 12
  · rw [h12]; exact h
  · have := Nat.findGreatest_is_greatest (P := fun m => daysBeforeMonth y m ≤ yd)
      (Nat.lt_succ_self (monthOfYearDay y yd)) (show monthOfYearDay y yd + 1 ≤ 12 by omega)
    simpa using this

/-- The day count of a civil date through `daysBeforeMonth`. -/
theorem daysSinceEpoch_eq (y m d : Nat) :
    daysSinceEpoch y m d
      = ((daysBeforeYear y + daysBeforeMonth y m + (d - 1) : Nat) : Int) - 719528 := by
  simp only [daysSinceEpoch, daysBeforeMonth, Nat.add_assoc]

/-- A wall-clock reading splits into its day number and its second of the day. -/
theorem dayNumber_secondOfDay (t : Time) (n sod : Nat) (hsod : sod < 86400)
    (h : t.localSeconds = (n : Int) * 86400 + sod) :
    t.dayNumber = n ∧ t.secondOfDay = sod := by
  unfold Time.dayNumber Time.secondOfDay
  rw [h]
  constructor <;> omega

/-- The wall-clock reading of a time built from civil fields and shifted by its offset. -/
theorem localSeconds_of_Date (y m d h mi s ns : Nat) (loc : Location) :
    Time.localSeconds { unix := (Date y m d h mi s ns).unix - loc.offset, nsec := ns, loc := loc }
      = ((daysBeforeYear y + daysBeforeMonth y m + (d - 1) : Nat) : Int) * 86400
        + ((h * 3600 + mi * 60 + s : Nat) : Int) := by
  simp only [Time.localSeconds, Date, daysSinceEpoch_eq]
  omega

/-- Reading the civil fields of a time built from valid civil fields gives the fields back. -/
theorem accessors_of_Date (y m d h mi s ns : Nat) (loc : Location)
    (hm1 : 1 ≤ m) (hm12 : m ≤ 12) (hd1 : 1 ≤ d) (hd : d ≤ daysIn m y)
    (hh : h < 24) (hmi : mi < 60) (hs : s < 60) (t : Time)
    (ht : t = { unix := (Date y m d h mi s ns).unix - loc.offset, nsec := ns, loc := loc }) :
    t.Year = y ∧ t.Month = m ∧ t.Day = d ∧ t.Hour = h ∧ t.Minute = mi ∧ t.Second = s
    ∧ t.Nanosecond = ns := by
  have hls := localSeconds_of_Date y m d h mi s ns loc
  rw [← ht] at hls
  obtain ⟨hn, hsod⟩ := dayNumber_secondOfDay t _ _ (by omega) hls
  obtain ⟨hstep, _⟩ := daysBeforeMonth_succ y m hm1 hm12
  have hmono := daysBeforeMonth_mono y (show 1 ≤ m + 1 by omega) (show m + 1 ≤ 13 by omega)
    (le_refl 13)
  have h13 := (daysBeforeMonth_table y).2.2.2.2.2.2.2.2.2.2.2.2
  have hyear : t.Year = y := by
    unfold Time.Year
    rw [hn]
    apply yearOfDay_eq
    · omega
    · rw [daysBeforeYear_succ]; omega
  have hyday : t.yday = daysBeforeMonth y m + (d - 1) := by
    unfold Time.yday; rw [hn, hyear]; omega
  have hmonth : t.Month = m := by
    unfold Time.Month
    rw [hyear, hyday]
    exact monthOfYearDay_eq y _ m hm1 hm12 (by omega) (by omega)
  refine ⟨hyear, hmonth, ?_, ?_, ?_, ?_, ?_⟩
  · unfold Time.Day; rw [hyday, hyear, hmonth]; omega
  · unfold Time.Hour; rw [hsod]; omega
  · unfold Time.Minute; rw [hsod]; omega
  · unfold Time.Second; rw [hsod]; omega
  · rw [ht]; rfl

/-- The civil fields read from a time from year 0 on are valid and denote the
time's wall-clock reading. -/
theorem Date_of_accessors (t : Time) (h0 : 0 ≤ t.localSeconds) :
    (Date t.Year t.Month t.Day t.Hour t.Minute t.Second t.nsec).unix = t.unix + t.loc.offset
    ∧ 1 ≤ t.Month ∧ t.Month ≤ 12 ∧ 1 ≤ t.Day ∧ t.Day ≤ daysIn t.Month t.Year
    ∧ t.Hour < 24 ∧ t.Minute < 60 ∧ t.Second < 60 := by
  have hn : (t.dayNumber : Int) = t.localSeconds / 86400 := by
    unfold Time.dayNumber; omega
  have hsod : (t.secondOfDay : Int) = t.localSeconds % 86400 := by
    unfold Time.secondOfDay; omega
  have hsodlt : t.secondOfDay < 86400 := by omega
  have hy1 : daysBeforeYear t.Year ≤ t.dayNumber := (yearOfDay_spec t.dayNumber).1
  have hy2 : t.dayNumber < daysBeforeYear (t.Year + 1) := (yearOfDay_spec t.dayNumber).2
  have hyday : t.yday = t.dayNumber - daysBeforeYear t.Year := rfl
  have hyd : t.yday < daysBeforeMonth t.Year 13 := by
    rw [(daysBeforeMonth_table t.Year).2.2.2.2.2.2.2.2.2.2.2.2]
    rw [daysBeforeYear_succ] at hy2
    omega
  have hm : 1 ≤ t.Month ∧ t.Month ≤ 12 ∧ daysBeforeMonth t.Year t.Month ≤ t.yday
      ∧ t.yday < daysBeforeMonth t.Year (t.Month + 1) := monthOfYearDay_spec t.Year t.yday hyd
  obtain ⟨hm1, hm12, hlo, hhi⟩ := hm
  obtain ⟨hstep, _⟩ := daysBeforeMonth_succ t.Year t.Month hm1 hm12
  have hday : t.Day = t.yday - daysBeforeMonth t.Year t.Month + 1 := rfl
  refine ⟨?_, hm1, hm12, by omega, by omega, ?_, ?_, ?_⟩
  · simp only [Date, daysSinceEpoch_eq]
    have hls : t.localSeconds = t.unix + t.loc.offset + 719528 * 86400 := rfl
    have hh : t.Hour * 3600 + t.Minute * 60 + t.Second = t.secondOfDay := by
      unfold Time.Hour Time.Minute Time.Second; omega
    rw [hh]
    have hdd : daysBeforeYear t.Year + daysBeforeMonth t.Year t.Month + (t.Day - 1)
        = t.dayNumber := by
      omega
    rw [hdd]
    omega
  · unfold Time.Hour; omega
  · unfold Time.Minute; omega
  · unfold Time.Second; omega

/-- A wall-clock reading before 10000-01-01 has a year of at most four digits. -/
theorem Year_lt (t : Time) (h0 : 0 ≤ t.localSeconds)
    (h : t.localSeconds < 3652425 * 86400) : t.Year < 10000 := by
  have hn : (t.dayNumber : Int) = t.localSeconds / 86400 := by
    unfold Time.dayNumber; omega
  obtain ⟨hy1, _⟩ := yearOfDay_spec t.dayNumber
  by_contra hge
  have := daysBeforeYear_mono (show 10000 ≤ yearOfDay t.dayNumber by
    unfold Time.Year at hge; omega)
  have h10 : daysBeforeYear 10000 = 3652425 := by decide
  omega

/-! ## Lemmas about the layouts -/

/-- Replacing the chunks after the first by chunks that start with the same
element and parse alike does not change the parse. -/
theorem parseChunks_cons_congr (c : List Char × Std) (rest rest2 : List (List Char × Std))
    (hhead : rest.head?.map Prod.snd = rest2.head?.map Prod.snd)
    (h : ∀ st value, parseChunks rest st value = parseChunks rest2 st value)
    (st : ParseState) (value : List Char) :
    parseChunks (c :: rest) st value = parseChunks (c :: rest2) st value := by
  obtain ⟨pfx, std⟩ := c
  simp only [parseChunks, hhead]
  cases skip value pfx with
  | none => rfl
  | some value1 =>
    simp only []
    cases parseStd std (Option.map Prod.snd rest2.head?) st value1 with
    | none => rfl
    | some r => obtain ⟨st1, value2⟩ := r; exact h st1 value2

/-- Skipping an empty literal returns the input. -/
theorem skip_nil (value : List Char) : skip value [] = some value := rfl

/-- Reading the seconds and then an optional fraction element is reading the
seconds when no fraction element follows. -/
theorem parseChunks_seconds_frac (digits : Nat) (rest : List (List Char × Std))
    (hrest : Std.isFrac (rest.head?.map Prod.snd) = false)
    (st : ParseState) (value : List Char) :
    parseChunks (([':'], Std.stdZeroSecond) :: ([], Std.stdFracSecond9 digits) :: rest) st value
      = parseChunks (([':'], Std.stdZeroSecond) :: rest) st value := by
  simp only [parseChunks, List.head?_cons, Option.map_some']
  cases skip value [':'] with
  | none => rfl
  | some value1 =>
    have hfrac : Std.isFrac (some (Std.stdFracSecond9 digits)) = true := rfl
    simp only [parseStd, hfrac, hrest]
    cases getnum value1 true with
    | none => rfl
    | some r =>
      obtain ⟨sec, value2⟩ := r
      simp only []
      by_cases hsec : 60 ≤ sec
      · simp only [hsec, if_true]
      · simp [hsec, skip_nil, parseStd]

/-- `RFC3339Nano` and `RFC3339` parse every input alike. -/
theorem Parse_RFC3339Nano (value : String) : Parse RFC3339Nano value = Parse RFC3339 value := by
  have h : ∀ st v, parseChunks RFC3339Nano.chunks st v = parseChunks RFC3339.chunks st v := by
    intro st v
    show parseChunks (_ :: _) st v = parseChunks (_ :: _) st v
    refine parseChunks_cons_congr _ _ _ ?_ (fun st v => ?_) st v
    · rfl
    refine parseChunks_cons_congr _ _ _ ?_ (fun st v => ?_) st v
    · rfl
    refine parseChunks_cons_congr _ _ _ ?_ (fun st v => ?_) st v
    · rfl
    refine parseChunks_cons_congr _ _ _ ?_ (fun st v => ?_) st v
    · rfl
    refine parseChunks_cons_congr _ _ _ ?_ (fun st v => ?_) st v
    · rfl
    exact parseChunks_seconds_frac 9 _ (by rfl) st v
  simp only [Parse, h]

/-- The zoneless layout without fraction and the one with microseconds parse every input alike. -/
theorem Parse_layoutSeconds (value : String) :
    Parse layoutSeconds value = Parse layoutMicro value := by
  have h : ∀ st v, parseChunks layoutMicro.chunks st v = parseChunks layoutSeconds.chunks st v := by
    intro st v
    show parseChunks (_ :: _) st v = parseChunks (_ :: _) st v
    refine parseChunks_cons_congr _ _ _ ?_ (fun st v => ?_) st v
    · rfl
    refine parseChunks_cons_congr _ _ _ ?_ (fun st v => ?_) st v
    · rfl
    refine parseChunks_cons_congr _ _ _ ?_ (fun st v => ?_) st v
    · rfl
    refine parseChunks_cons_congr _ _ _ ?_ (fun st v => ?_) st v
    · rfl
    refine parseChunks_cons_congr _ _ _ ?_ (fun st v => ?_) st v
    · rfl
    exact parseChunks_seconds_frac 6 _ (by rfl) st v
  simp only [Parse, h]

/-- A time located in UTC is its own `UTC()`. -/
theorem UTC_of_Location (t : Time) (h : t.Location = Location.UTC) : t.UTC = t := by
  cases t; simp only [Time.Location] at h; simp [Time.UTC, h]

/-- The loop of `parseTimestamp` returns the parse of the first layout that accepts. -/
theorem parseTimestampLoop_eq_firstAccepted (order : List Layout) (s : String) :
    parseTimestampLoop order s
      = match firstAccepted order s with
        | some t => Except.ok t
        | none => Except.error ("unable to parse timestamp: " ++ s) := by
  induction order with
  | nil => simp [parseTimestampLoop, firstAccepted]
  | cons format rest ih =>
    cases hp : Parse format s with
    | none =>
      have : firstAccepted (format :: rest) s = firstAccepted rest s := by
        simp [firstAccepted, List.filterMap_cons, hp]
      simp only [parseTimestampLoop, hp, this, ih]
    | some t =>
      have : firstAccepted (format :: rest) s = some t := by
        simp [firstAccepted, List.filterMap_cons, hp]
      simp only [parseTimestampLoop, hp, this]
      split
      · rename_i hc; rw [UTC_of_Location t hc.1]
      · rfl

/-- Swapping the first two layouts does not change the first accepted parse. -/
theorem firstAccepted_specOrder (s : String) :
    firstAccepted specOrder s = firstAccepted formats s := by
  simp only [firstAccepted, specOrder, formats, List.filterMap_cons, Parse_RFC3339Nano]

/-- Dropping the two redundant layouts does not change the first accepted parse. -/
theorem firstAccepted_formatsReduced (s : String) :
    firstAccepted formats s = firstAccepted formatsReduced s := by
  simp only [firstAccepted, formats, formatsReduced, List.filterMap_cons, Parse_RFC3339Nano,
    Parse_layoutSeconds]
  cases Parse RFC3339 s <;> cases Parse layoutMicro s <;> rfl

/-! ## Lemmas about digits -/

/-- The code point of a digit character. -/
theorem digitChar_toNat (d : Nat) (h : d < 10) : (digitChar d).toNat = 48 + d := by
  interval_cases d <;> rfl

/-- A digit character is a digit. -/
theorem isDigit_digitChar (d : Nat) (h : d < 10) : isDigit (digitChar d) = true := by
  simp [isDigit, digitChar_toNat d h]; omega

/-- The value of a digit character. -/
theorem digitVal_digitChar (d : Nat) (h : d < 10) : digitVal (digitChar d) = d := by
  simp [digitVal, digitChar_toNat d h]

/-- A digit is the character of its value. -/
theorem digitChar_digitVal (c : Char) (h : isDigit c = true) : digitChar (digitVal c) = c := by
  simp only [isDigit, Bool.and_eq_true, decide_eq_true_eq] at h
  have : 48 + (c.toNat - 48) = c.toNat := by omega
  simp [digitChar, digitVal, this]

/-- The value of a digit is below ten. -/
theorem digitVal_lt (c : Char) (h : isDigit c = true) : digitVal c < 10 := by
  simp only [isDigit, Bool.and_eq_true, decide_eq_true_eq] at h
  unfold digitVal; omega

/-- Two digits with leading zero. -/
theorem padded_two (x : Nat) : padded 2 x = [digitChar (x / 10 % 10), digitChar (x % 10)] := by
  simp [padded]

/-- Four digits with leading zeros. -/
theorem padded_four (x : Nat) :
    padded 4 x = [digitChar (x / 10 / 10 / 10 % 10), digitChar (x / 10 / 10 % 10),
      digitChar (x / 10 % 10), digitChar (x % 10)] := by
  simp [padded]

/-- `getnum` reads back a number written with two digits. -/
theorem getnum_padded (x : Nat) (hx : x < 100) (fixed : Bool) (rest : List Char) :
    getnum (padded 2 x ++ rest) fixed = some (x, rest) := by
  have h1 : x / 10 % 10 < 10 := Nat.mod_lt _ (by norm_num)
  have h0 : x % 10 < 10 := Nat.mod_lt _ (by norm_num)
  simp only [padded_two, List.cons_append, List.nil_append, getnum, isDigit_digitChar _ h1,
    isDigit_digitChar _ h0, digitVal_digitChar _ h1, digitVal_digitChar _ h0, if_true]
  have : x / 10 % 10 * 10 + x % 10 = x := by omega
  rw [this]

/-- `atoi` reads back a year written with four digits. -/
theorem atoi_padded_four (y : Nat) (hy : y < 10000) : atoi (padded 4 y) = some y := by
  have h3 : y / 10 / 10 / 10 % 10 < 10 := Nat.mod_lt _ (by norm_num)
  have h2 : y / 10 / 10 % 10 < 10 := Nat.mod_lt _ (by norm_num)
  have h1 : y / 10 % 10 < 10 := Nat.mod_lt _ (by norm_num)
  have h0 : y % 10 < 10 := Nat.mod_lt _ (by norm_num)
  simp only [padded_four, atoi, List.all_cons, List.all_nil, isDigit_digitChar _ h3,
    isDigit_digitChar _ h2, isDigit_digitChar _ h1, isDigit_digitChar _ h0, Bool.and_self,
    if_true, List.foldl_cons, List.foldl_nil, digitVal_digitChar _ h3, digitVal_digitChar _ h2,
    digitVal_digitChar _ h1, digitVal_digitChar _ h0]
  congr 1
  omega

/-- Skipping a literal character that is not a space. -/
theorem skip_char (c : Char) (hc : c.toNat ≠ 32) (rest : List Char) :
    skip (c :: rest) [c] = some rest := by
  simp [skip, skipFuel, hc]

/-- For a number below the width, `appendInt` writes exactly `width` digits. -/
theorem appendInt_eq (x width : Nat) (h : x < 10 ^ width) : appendInt x width = padded width x := by
  simp [appendInt, h]

/-! ## Parsing what `Format` writes -/

/-- Reading back a four-digit year. -/
theorem parseStd_year (y : Nat) (hy : y < 10000) (nx : Option Std) (st : ParseState)
    (tail : List Char) :
    parseStd Std.stdLongYear nx st (padded 4 y ++ tail) = some ({ st with year := y }, tail) := by
  have h3 : y / 10 / 10 / 10 % 10 < 10 := Nat.mod_lt _ (by norm_num)
  have ha := atoi_padded_four y hy
  rw [padded_four] at ha
  simp only [padded_four, List.cons_append, List.nil_append, parseStd, isDigit_digitChar _ h3,
    if_true, ha]

/-- Reading back a two-digit month. -/
theorem parseStd_month (m : Nat) (h1 : 1 ≤ m) (h12 : m ≤ 12) (nx : Option Std)
    (st : ParseState) (tail : List Char) :
    parseStd Std.stdZeroMonth nx st (padded 2 m ++ tail) = some ({ st with month := m }, tail) := by
  have : ¬ (m = 0 ∨ 12 < m) := by omega
  simp only [parseStd, getnum_padded m (by omega) true tail, this, if_false]

/-- Reading back a two-digit day. -/
theorem parseStd_day (d : Nat) (hd : d < 100) (nx : Option Std) (st : ParseState)
    (tail : List Char) :
    parseStd Std.stdZeroDay nx st (padded 2 d ++ tail) = some ({ st with day := d }, tail) := by
  simp only [parseStd, getnum_padded d hd true tail]

/-- Reading back a two-digit hour. -/
theorem parseStd_hour (h : Nat) (hh : h < 24) (nx : Option Std) (st : ParseState)
    (tail : List Char) :
    parseStd Std.stdHour nx st (padded 2 h ++ tail) = some ({ st with hour := h }, tail) := by
  have : ¬ 24 ≤ h := by omega
  simp only [parseStd, getnum_padded h (by omega) false tail, this, if_false]

/-- Reading back a two-digit minute. -/
theorem parseStd_minute (m : Nat) (hm : m < 60) (nx : Option Std) (st : ParseState)
    (tail : List Char) :
    parseStd Std.stdZeroMinute nx st (padded 2 m ++ tail) = some ({ st with min := m }, tail) := by
  have : ¬ 60 ≤ m := by omega
  simp only [parseStd, getnum_padded m (by omega) true tail, this, if_false]

/-- No fraction is read from a text that does not start with a comma or period. -/
theorem parseFraction_none (st : ParseState) (c : Char) (rest : List Char)
    (hc : commaOrPeriod c = false) : parseFraction st (c :: rest) = some (st, c :: rest) := by
  cases rest with
  | nil => rfl
  | cons d rest => simp [parseFraction, hc]

/-- Reading back two-digit seconds that are followed by a zone. -/
theorem parseStd_second (s : Nat) (hs : s < 60) (nx : Option Std) (st : ParseState)
    (c : Char) (rest : List Char) (hc : commaOrPeriod c = false) :
    parseStd Std.stdZeroSecond nx st (padded 2 s ++ c :: rest)
      = some ({ st with sec := s }, c :: rest) := by
  have : ¬ 60 ≤ s := by omega
  simp only [parseStd, getnum_padded s (by omega) true (c :: rest), this, if_false,
    parseFraction_none _ c rest hc, ite_self]

/-- What `Format` writes for the zone starts with `Z`, `+` or `-`. -/
theorem formatStd_zone_head (t : Time) :
    ∃ c rest, formatStd t Std.stdISO8601ColonTZ = c :: rest ∧ commaOrPeriod c = false := by
  unfold formatStd
  by_cases h0 : t.loc.offset = 0
  · exact ⟨_, _, by rw [if_pos h0], by decide⟩
  · by_cases hneg : t.loc.offset.tdiv 60 < 0
    · exact ⟨_, _, by rw [if_neg h0, if_pos hneg], by decide⟩
    · exact ⟨_, _, by rw [if_neg h0, if_neg hneg], by decide⟩

/-- Reading back the zone that `Format` writes for an offset of whole minutes
below twenty-five hours. -/
theorem parseStd_zone (t : Time) (nx : Option Std) (st : ParseState)
    (hmin : t.loc.offset % 60 = 0) (hlo : -90000 < t.loc.offset) (hhi : t.loc.offset < 90000) :
    parseStd Std.stdISO8601ColonTZ nx st (formatStd t Std.stdISO8601ColonTZ)
      = some (if t.loc.offset = 0 then { st with z := some Location.UTC }
              else { st with zoneOffset := t.loc.offset }, []) := by
  by_cases h0 : t.loc.offset = 0
  · simp [formatStd, parseStd, h0]
  · have hdiv : t.loc.offset.tdiv 60 = t.loc.offset / 60 :=
      Int.tdiv_eq_ediv_of_dvd (Int.dvd_of_emod_eq_zero hmin)
    have hhr : (t.loc.offset / 60).natAbs / 60 < 100 := by omega
    have hmm : (t.loc.offset / 60).natAbs % 60 < 100 := by omega
    have g1 := getnum_padded _ hhr true []
    have g2 := getnum_padded _ hmm true []
    rw [padded_two] at g1 g2
    simp only [List.cons_append, List.nil_append] at g1 g2
    have hr24 : ¬ (24 < (t.loc.offset / 60).natAbs / 60
        ∨ 60 < (t.loc.offset / 60).natAbs % 60) := by
      omega
    by_cases hneg : t.loc.offset / 60 < 0
    · have hval : -(((((t.loc.offset / 60).natAbs / 60 * 60
          + (t.loc.offset / 60).natAbs % 60) * 60 : Nat)) : Int) = t.loc.offset := by omega
      simp [formatStd, parseStd, h0, hdiv, hneg, appendInt_eq _ 2 hhr, appendInt_eq _ 2 hmm,
        padded_two, g1, g2, hr24]
      push_cast at hval
      simpa using hval
    · have hval : ((((t.loc.offset / 60).natAbs / 60 * 60
          + (t.loc.offset / 60).natAbs % 60) * 60 : Nat) : Int) = t.loc.offset := by omega
      simp [formatStd, parseStd, h0, hdiv, hneg, appendInt_eq _ 2 hhr, appendInt_eq _ 2 hmm,
        padded_two, g1, g2, hr24]
      push_cast at hval
      simpa using hval

/-- The days of a month never exceed 31. -/
theorem daysIn_le (m y : Nat) (h1 : 1 ≤ m) (h12 : m ≤ 12) : daysIn m y ≤ 31 := by
  interval_cases m <;> cases hl : isLeap y <;> simp [daysIn, daysBefore, hl]

/-- `Parse` with the `RFC3339` layout reads back what `Format` writes with it,
for a time with whole seconds between the years 0 and 9999 whose offset is a
whole number of minutes below twenty-five hours. -/
theorem Parse_Format_RFC3339 (t : Time) (hlo : 0 ≤ t.localSeconds)
    (hhi : t.localSeconds < 3652425 * 86400) (hmin : t.loc.offset % 60 = 0)
    (homin : -90000 < t.loc.offset) (homax : t.loc.offset < 90000) :
    Parse RFC3339 (t.Format RFC3339)
      = some { unix := t.unix, nsec := 0,
               loc := if t.loc.offset = 0 then Location.UTC else Location.zone t.loc.offset } := by
  obtain ⟨hunix, hm1, hm12, hd1, hd, hh, hmi, hs⟩ := Date_of_accessors t hlo
  have hy := Year_lt t hlo hhi
  have hd31 := daysIn_le t.Month t.Year hm1 hm12
  obtain ⟨c, zrest, hz, hc⟩ := formatStd_zone_head t
  have hchunks : parseChunks RFC3339.chunks ParseState.init (t.Format RFC3339).data
      = some (if t.loc.offset = 0 then
          ⟨t.Year, t.Month, t.Day, t.Hour, t.Minute, t.Second, 0, some Location.UTC, -1⟩
        else
          ⟨t.Year, t.Month, t.Day, t.Hour, t.Minute, t.Second, 0, none, t.loc.offset⟩) := by
    simp only [Time.Format, RFC3339, formatChunks, formatStd.eq_1, formatStd.eq_2, formatStd.eq_3,
      formatStd.eq_4, formatStd.eq_5, formatStd.eq_6,
      appendInt_eq _ 4 (show t.Year < 10 ^ 4 by omega),
      appendInt_eq _ 2 (show t.Month < 10 ^ 2 by omega),
      appendInt_eq _ 2 (show t.Day < 10 ^ 2 by omega),
      appendInt_eq _ 2 (show t.Hour < 10 ^ 2 by omega),
      appendInt_eq _ 2 (show t.Minute < 10 ^ 2 by omega),
      appendInt_eq _ 2 (show t.Second < 10 ^ 2 by omega), List.append_nil]
    rw [hz]
    simp only [parseChunks, List.nil_append, List.singleton_append, skip_nil,
      skip_char '-' (by decide), skip_char 'T' (by decide), skip_char ':' (by decide),
      parseStd_year _ hy, parseStd_month _ hm1 hm12, parseStd_day _ (show t.Day < 100 by omega),
      parseStd_hour _ hh, parseStd_minute _ hmi, parseStd_second _ hs _ _ c zrest hc]
    rw [← hz]
    simp only [parseStd_zone t _ _ hmin homin homax]
    by_cases h0 : t.loc.offset = 0 <;> simp [h0, ParseState.init]
  simp only [Parse, hchunks]
  by_cases h0 : t.loc.offset = 0
  · have hday : ¬ (t.Day < 1 ∨ daysIn t.Month t.Year < t.Day) := by omega
    simp only [h0, if_true, hday, if_false, ParseState.init]
    simp [Date] at hunix ⊢
    simp [Date, hunix, h0]
  · have hday : ¬ (t.Day < 1 ∨ daysIn t.Month t.Year < t.Day) := by omega
    have hne : t.loc.offset ≠ -1 := by omega
    simp only [h0, if_false, hday, ParseState.init, hne, ne_eq, not_false_iff, if_true]
    simp [Date] at hunix ⊢
    omega

/-! ## What the zoneless layouts accept -/

/-- A successful turn of the parse loop, taken apart. -/
theorem parseChunks_cons_inv (pfx : List Char) (std : Std) (rest : List (List Char × Std))
    (st stf : ParseState) (value : List Char)
    (h : parseChunks ((pfx, std) :: rest) st value = some stf) :
    ∃ value1 st1 value2, skip value pfx = some value1
      ∧ parseStd std (rest.head?.map Prod.snd) st value1 = some (st1, value2)
      ∧ parseChunks rest st1 value2 = some stf := by
  simp only [parseChunks] at h
  cases hs : skip value pfx with
  | none => rw [hs] at h; cases h
  | some value1 =>
    rw [hs] at h
    simp only [] at h
    cases hp : parseStd std (rest.head?.map Prod.snd) st value1 with
    | none => rw [hp] at h; cases h
    | some r =>
      obtain ⟨st1, value2⟩ := r
      rw [hp] at h
      exact ⟨value1, st1, value2, rfl, hp, h⟩

/-- At the end of the layout the input is used up. -/
theorem parseChunks_nil_inv (st stf : ParseState) (value : List Char)
    (h : parseChunks [] st value = some stf) : value = [] ∧ stf = st := by
  simp only [parseChunks] at h
  by_cases hv : value = []
  · rw [if_pos hv] at h; exact ⟨hv, (Option.some.inj h).symm⟩
  · rw [if_neg hv] at h; cases h

/-- A literal character that is not a space is skipped only from the head of the input. -/
theorem skip_char_inv (c : Char) (hc : c.toNat ≠ 32) (value rest : List Char)
    (h : skip value [c] = some rest) : value = c :: rest := by
  cases value with
  | nil => simp [skip, skipFuel, hc] at h
  | cons v vs =>
    simp only [skip, skipFuel, List.length_singleton, hc, if_false] at h
    by_cases hv : v = c
    · simp [hv] at h; rw [hv, h]
    · simp [hv] at h

/-- A character with code 32 is the space. -/
theorem eq_space_of_toNat (c : Char) (h : c.toNat = 32) : c = ' ' := by
  have := Char.ofNat_toNat c
  rw [h] at this
  exact this.symm

/-- `cutspace` removes a run of spaces. -/
theorem cutspace_spec (value : List Char) :
    ∃ sep, value = sep ++ cutspace value ∧ ∀ c ∈ sep, c = ' ' := by
  induction value with
  | nil => exact ⟨[], rfl, by simp⟩
  | cons v vs ih =>
    by_cases hv : v.toNat = 32
    · obtain ⟨sep, h1, h2⟩ := ih
      refine ⟨v :: sep, ?_, ?_⟩
      · simp only [cutspace, hv, if_true, List.cons_append]; rw [← h1]
      · intro c hc
        rcases List.mem_cons.1 hc with h | h
        · rw [h]; exact eq_space_of_toNat v hv
        · exact h2 c h
    · exact ⟨[], by simp [cutspace, hv], by simp⟩

/-- A literal space is skipped as a run of spaces, which is empty only at the
end of the input. -/
theorem skip_space_inv (value rest : List Char) (h : skip value [' '] = some rest) :
    ∃ sep, value = sep ++ rest ∧ (∀ c ∈ sep, c = ' ') ∧ (sep = [] → rest = []) := by
  cases value with
  | nil =>
    have : rest = [] := by
      simp [skip, skipFuel, cutspace] at h
      exact h
    exact ⟨[], by simp [this], by simp, fun _ => this⟩
  | cons v vs =>
    by_cases hv : v.toNat = 32
    · have hr : rest = cutspace (v :: vs) := by
        simp [skip, skipFuel, hv, cutspace] at h
        simp [cutspace, hv, h]
      obtain ⟨sep, h1, h2⟩ := cutspace_spec vs
      refine ⟨v :: sep, ?_, ?_, by simp⟩
      · rw [hr]; simp only [cutspace, hv, if_true, List.cons_append]; rw [← h1]
      · intro c hc
        rcases List.mem_cons.1 hc with h3 | h3
        · rw [h3]; exact eq_space_of_toNat v hv
        · exact h2 c h3
    · simp [skip, skipFuel, hv] at h

/-- One digit. -/
theorem padded_one (x : Nat) : padded 1 x = [digitChar (x % 10)] := by
  simp [padded]

/-- What `getnum` reads with `fixed` is a number written with two digits. -/
theorem getnum_fixed_inv (value rest : List Char) (n : Nat)
    (h : getnum value true = some (n, rest)) : n < 100 ∧ value = padded 2 n ++ rest := by
  unfold getnum at h
  cases value with
  | nil => cases h
  | cons c0 v1 =>
    simp only [] at h
    by_cases h0 : isDigit c0 = true
    · rw [if_pos h0] at h
      cases v1 with
      | nil => simp at h
      | cons c1 v2 =>
        simp only [] at h
        by_cases h1 : isDigit c1 = true
        · rw [if_pos h1] at h
          have hn : digitVal c0 * 10 + digitVal c1 = n := by
            have := Option.some.inj h; exact congrArg Prod.fst this
          have hr : v2 = rest := by
            have := Option.some.inj h; exact congrArg Prod.snd this
          have l0 := digitVal_lt c0 h0
          have l1 := digitVal_lt c1 h1
          refine ⟨by omega, ?_⟩
          rw [padded_two, ← hn, ← hr]
          have e1 : (digitVal c0 * 10 + digitVal c1) / 10 % 10 = digitVal c0 := by omega
          have e0 : (digitVal c0 * 10 + digitVal c1) % 10 = digitVal c1 := by omega
          rw [e1, e0, digitChar_digitVal c0 h0, digitChar_digitVal c1 h1]
          rfl
        · rw [if_neg h1] at h; simp at h
    · rw [if_neg h0] at h; cases h

/-- What `getnum` reads without `fixed` is a number written with two digits or with one. -/
theorem getnum_free_inv (value rest : List Char) (n : Nat)
    (h : getnum value false = some (n, rest)) :
    (n < 100 ∧ value = padded 2 n ++ rest) ∨ (n < 10 ∧ value = padded 1 n ++ rest) := by
  unfold getnum at h
  cases value with
  | nil => cases h
  | cons c0 v1 =>
    simp only [] at h
    by_cases h0 : isDigit c0 = true
    · rw [if_pos h0] at h
      have l0 := digitVal_lt c0 h0
      cases v1 with
      | nil =>
        simp at h
        obtain ⟨hn, hr⟩ := h
        right
        refine ⟨by omega, ?_⟩
        rw [padded_one, ← hn, hr, Nat.mod_eq_of_lt l0, digitChar_digitVal c0 h0]
        rfl
      | cons c1 v2 =>
        simp only [] at h
        by_cases h1 : isDigit c1 = true
        · left
          exact getnum_fixed_inv (c0 :: c1 :: v2) rest n (by
            simp only [getnum, h0, h1, if_true] at h ⊢; exact h)
        · rw [if_neg h1] at h
          simp at h
          obtain ⟨hn, hr⟩ := h
          right
          refine ⟨by omega, ?_⟩
          rw [padded_one, ← hn, ← hr, Nat.mod_eq_of_lt l0, digitChar_digitVal c0 h0]
          rfl
    · rw [if_neg h0] at h; cases h

/-- `atoi` through `decimal`. -/
theorem atoi_eq (s : List Char) :
    atoi s = if s.all isDigit = true then some (decimal s) else none := rfl

/-- Appending a digit multiplies by ten and adds the digit. -/
theorem decimal_append_singleton (l : List Char) (c : Char) :
    decimal (l ++ [c]) = decimal l * 10 + digitVal c := by
  simp [decimal, List.foldl_append]

/-- Digits are the padded writing of the number they write. -/
theorem padded_decimal (l : List Char) (h : ∀ c ∈ l, isDigit c = true) :
    padded l.length (decimal l) = l := by
  induction l using List.reverseRecOn with
  | nil => rfl
  | append_singleton l c ih =>
    have hc : isDigit c = true := h c (by simp)
    have hl : ∀ d ∈ l, isDigit d = true := fun d hd => h d (by simp [hd])
    have lc := digitVal_lt c hc
    rw [List.length_append, List.length_singleton, padded, decimal_append_singleton]
    have e1 : (decimal l * 10 + digitVal c) / 10 = decimal l := by omega
    have e0 : (decimal l * 10 + digitVal c) % 10 = digitVal c := by omega
    rw [e1, e0, ih hl, digitChar_digitVal c hc]

/-- Digits write a number below the power of ten of their count. -/
theorem decimal_lt (l : List Char) (h : ∀ c ∈ l, isDigit c = true) :
    decimal l < 10 ^ l.length := by
  induction l using List.reverseRecOn with
  | nil => simp [decimal]
  | append_singleton l c ih =>
    have hc : isDigit c = true := h c (by simp)
    have hl : ∀ d ∈ l, isDigit d = true := fun d hd => h d (by simp [hd])
    have lc := digitVal_lt c hc
    have il := ih hl
    rw [List.length_append, List.length_singleton, decimal_append_singleton, pow_succ]
    omega

/-- Multiplying by a power of ten appends zeros. -/
theorem padded_mul_pow (k j x : Nat) :
    padded (k + j) (x * 10 ^ j) = padded k x ++ List.replicate j '0' := by
  induction j with
  | zero => simp
  | succ j ih =>
    have e1 : x * 10 ^ (j + 1) / 10 = x * 10 ^ j := by
      rw [pow_succ, ← Nat.mul_assoc, Nat.mul_div_cancel _ (by norm_num : 0 < 10)]
    have e0 : x * 10 ^ (j + 1) % 10 = 0 := by
      rw [pow_succ, ← Nat.mul_assoc, Nat.mul_mod_left]
    rw [← Nat.add_assoc, padded, e1, e0, ih, List.replicate_succ', List.append_assoc]
    rfl

/-- The nanoseconds `parseNanoseconds` returns, written with nine digits, are
the first nine fraction digits, filled up with zeros. -/
theorem parseNanoseconds_inv (ds : List Char) (ns : Nat) (hd : ∀ c ∈ ds, isDigit c = true)
    (h : parseNanoseconds ds = some ns) :
    padded 9 ns = (ds ++ List.replicate 9 '0').take 9 := by
  have hall : (ds.take 9).all isDigit = true := by
    rw [List.all_eq_true]; exact fun c hc => hd c (List.mem_of_mem_take hc)
  simp only [parseNanoseconds, atoi_eq, hall, if_true] at h
  have hns := Option.some.inj h
  have hk : (ds.take 9).length ≤ 9 := by simp
  have hdl : ∀ c ∈ ds.take 9, isDigit c = true := fun c hc => hd c (List.mem_of_mem_take hc)
  have key := padded_mul_pow (ds.take 9).length (9 - (ds.take 9).length) (decimal (ds.take 9))
  rw [show (ds.take 9).length + (9 - (ds.take 9).length) = 9 by omega, hns,
    padded_decimal _ hdl] at key
  rw [key, List.take_append_eq_append_take, List.take_replicate]
  congr 2
  simp only [List.length_take]
  omega

/-- The nanoseconds `parseNanoseconds` returns are below one second. -/
theorem parseNanoseconds_lt (ds : List Char) (ns : Nat) (hd : ∀ c ∈ ds, isDigit c = true)
    (h : parseNanoseconds ds = some ns) : ns < 1000000000 := by
  have hall : (ds.take 9).all isDigit = true := by
    rw [List.all_eq_true]; exact fun c hc => hd c (List.mem_of_mem_take hc)
  simp only [parseNanoseconds, atoi_eq, hall, if_true] at h
  have hns := Option.some.inj h
  have hk : (ds.take 9).length ≤ 9 := by simp
  have hlt := decimal_lt (ds.take 9) (fun c hc => hd c (List.mem_of_mem_take hc))
  have hpos : 0 < 10 ^ (9 - (ds.take 9).length) := by positivity
  have hmul := Nat.mul_lt_mul_of_pos_right hlt hpos
  rw [← pow_add, show (ds.take 9).length + (9 - (ds.take 9).length) = 9 by omega, hns] at hmul
  exact hmul

/-- `spanDigits` splits off digits. -/
theorem spanDigits_spec (l : List Char) :
    (spanDigits l).1 ++ (spanDigits l).2 = l ∧ ∀ c ∈ (spanDigits l).1, isDigit c = true := by
  induction l with
  | nil => simp [spanDigits]
  | cons c cs ih =>
    by_cases hc : isDigit c = true
    · simp only [spanDigits, hc, if_true, List.cons_append, ih.1, true_and]
      intro d hd
      rcases List.mem_cons.1 hd with h | h
      · rw [h]; exact hc
      · exact ih.2 d h
    · simp [spanDigits, hc]

/-- What `parseFraction` reads: nothing, or a comma or period and at least one
digit; the nanoseconds are the first nine digits, filled up with zeros. -/
theorem parseFraction_inv (st st1 : ParseState) (value rest : List Char)
    (h : parseFraction st value = some (st1, rest)) :
    (st1 = st ∧ rest = value)
    ∨ ∃ c ds ns, value = c :: (ds ++ rest) ∧ commaOrPeriod c = true ∧ ds ≠ []
        ∧ (∀ d ∈ ds, isDigit d = true) ∧ st1 = { st with nsec := ns }
        ∧ padded 9 ns = (ds ++ List.replicate 9 '0').take 9 ∧ ns < 1000000000 := by
  unfold parseFraction at h
  split at h
  · rename_i c d tl
    by_cases hcd : commaOrPeriod c = true ∧ isDigit d = true
    · rw [if_pos hcd] at h
      obtain ⟨hsplit, hdig⟩ := spanDigits_spec (d :: tl)
      cases hp : parseNanoseconds (spanDigits (d :: tl)).1 with
      | none => rw [hp] at h; cases h
      | some ns =>
        rw [hp] at h
        simp only [Option.some.injEq, Prod.mk.injEq] at h
        right
        refine ⟨c, (spanDigits (d :: tl)).1, ns, ?_, hcd.1, ?_, hdig, h.1.symm,
          parseNanoseconds_inv _ ns hdig hp, parseNanoseconds_lt _ ns hdig hp⟩
        · rw [← h.2, hsplit]
        · simp [spanDigits, hcd.2]
    · rw [if_neg hcd] at h
      simp only [Option.some.injEq, Prod.mk.injEq] at h
      exact Or.inl ⟨h.1.symm, h.2.symm⟩
  · simp only [Option.some.injEq, Prod.mk.injEq] at h
    exact Or.inl ⟨h.1.symm, h.2.symm⟩

/-- A year that parses is written with four digits. -/
theorem parseStd_year_inv (nx : Option Std) (st st1 : ParseState) (value rest : List Char)
    (h : parseStd Std.stdLongYear nx st value = some (st1, rest)) :
    ∃ y, y < 10000 ∧ value = padded 4 y ++ rest ∧ st1 = { st with year := y } := by
  simp only [parseStd] at h
  split at h
  · rename_i c0 c1 c2 c3 tl
    by_cases h0 : isDigit c0 = true
    · rw [if_pos h0, atoi_eq] at h
      by_cases hall : [c0, c1, c2, c3].all isDigit = true
      · rw [if_pos hall] at h
        simp only [Option.some.injEq, Prod.mk.injEq] at h
        have hdig : ∀ c ∈ [c0, c1, c2, c3], isDigit c = true := by
          rw [List.all_eq_true] at hall; exact hall
        have hlt : decimal [c0, c1, c2, c3] < 10000 := by
          have h4 := decimal_lt [c0, c1, c2, c3] hdig
          simp only [List.length_cons, List.length_nil] at h4
          norm_num at h4
          exact h4
        refine ⟨decimal [c0, c1, c2, c3], hlt, ?_, h.1.symm⟩
        have := padded_decimal [c0, c1, c2, c3] hdig
        simp only [List.length_cons, List.length_nil] at this
        rw [this, ← h.2]; rfl
      · rw [if_neg hall] at h; cases h
    · rw [if_neg h0] at h; cases h
  · cases h

/-- A month that parses is between 1 and 12 and written with two digits. -/
theorem parseStd_month_inv (nx : Option Std) (st st1 : ParseState) (value rest : List Char)
    (h : parseStd Std.stdZeroMonth nx st value = some (st1, rest)) :
    ∃ m, 1 ≤ m ∧ m ≤ 12 ∧ value = padded 2 m ++ rest ∧ st1 = { st with month := m } := by
  simp only [parseStd] at h
  cases hg : getnum value true with
  | none => simp only [hg] at h; cases h
  | some r =>
    obtain ⟨m, tl⟩ := r
    simp only [hg] at h
    by_cases hm : m = 0 ∨ 12 < m
    · rw [if_pos hm] at h; cases h
    · rw [if_neg hm] at h
      simp only [Option.some.injEq, Prod.mk.injEq] at h
      obtain ⟨_, hv⟩ := getnum_fixed_inv value tl m hg
      exact ⟨m, by omega, by omega, by rw [hv, h.2], h.1.symm⟩

/-- A day that parses is written with two digits. -/
theorem parseStd_day_inv (nx : Option Std) (st st1 : ParseState) (value rest : List Char)
    (h : parseStd Std.stdZeroDay nx st value = some (st1, rest)) :
    ∃ d, value = padded 2 d ++ rest ∧ st1 = { st with day := d } := by
  simp only [parseStd] at h
  cases hg : getnum value true with
  | none => simp only [hg] at h; cases h
  | some r =>
    obtain ⟨d, tl⟩ := r
    simp only [hg, Option.some.injEq, Prod.mk.injEq] at h
    obtain ⟨_, hv⟩ := getnum_fixed_inv value tl d hg
    exact ⟨d, by rw [hv, h.2], h.1.symm⟩

/-- An hour that parses is below 24 and written with two digits or with one. -/
theorem parseStd_hour_inv (nx : Option Std) (st st1 : ParseState) (value rest : List Char)
    (h : parseStd Std.stdHour nx st value = some (st1, rest)) :
    ∃ hr hourText, hr < 24 ∧ value = hourText ++ rest
      ∧ (hourText = padded 2 hr ∨ (hr < 10 ∧ hourText = padded 1 hr))
      ∧ st1 = { st with hour := hr } := by
  simp only [parseStd] at h
  cases hg : getnum value false with
  | none => simp only [hg] at h; cases h
  | some r =>
    obtain ⟨hr, tl⟩ := r
    simp only [hg] at h
    by_cases hm : 24 ≤ hr
    · rw [if_pos hm] at h; cases h
    · rw [if_neg hm] at h
      simp only [Option.some.injEq, Prod.mk.injEq] at h
      rcases getnum_free_inv value tl hr hg with ⟨_, hv⟩ | ⟨h10, hv⟩
      · exact ⟨hr, padded 2 hr, by omega, by rw [hv, h.2], Or.inl rfl, h.1.symm⟩
      · exact ⟨hr, padded 1 hr, by omega, by rw [hv, h.2], Or.inr ⟨h10, rfl⟩, h.1.symm⟩

/-- A minute that parses is below 60 and written with two digits. -/
theorem parseStd_minute_inv (nx : Option Std) (st st1 : ParseState) (value rest : List Char)
    (h : parseStd Std.stdZeroMinute nx st value = some (st1, rest)) :
    ∃ m, m < 60 ∧ value = padded 2 m ++ rest ∧ st1 = { st with min := m } := by
  simp only [parseStd] at h
  cases hg : getnum value true with
  | none => simp only [hg] at h; cases h
  | some r =>
    obtain ⟨m, tl⟩ := r
    simp only [hg] at h
    by_cases hm : 60 ≤ m
    · rw [if_pos hm] at h; cases h
    · rw [if_neg hm] at h
      simp only [Option.some.injEq, Prod.mk.injEq] at h
      obtain ⟨_, hv⟩ := getnum_fixed_inv value tl m hg
      exact ⟨m, by omega, by rw [hv, h.2], h.1.symm⟩

/-- Seconds that parse at the end of a layout are below 60, written with two
digits, and followed by what `parseFraction` reads. -/
theorem parseStd_second_inv (st st1 : ParseState) (value rest : List Char)
    (h : parseStd Std.stdZeroSecond none st value = some (st1, rest)) :
    ∃ s tl, s < 60 ∧ value = padded 2 s ++ tl
      ∧ parseFraction { st with sec := s } tl = some (st1, rest) := by
  simp only [parseStd] at h
  cases hg : getnum value true with
  | none => simp only [hg] at h; cases h
  | some r =>
    obtain ⟨s, tl⟩ := r
    simp only [hg] at h
    by_cases hm : 60 ≤ s
    · rw [if_pos hm] at h; cases h
    · rw [if_neg hm] at h
      have hf : Std.isFrac none = false := rfl
      simp only [hf, Bool.false_eq_true, if_false] at h
      obtain ⟨_, hv⟩ := getnum_fixed_inv value tl s hg
      exact ⟨s, tl, by omega, hv, h⟩

/-- What a zoneless layout accepts: the fields it read, written in the order
year, month, day, separator, hour, minute, second, optional fraction. -/
theorem parseChunks_zoneless_inv (sepLit : List Char) (hsep : sepLit = ['T'] ∨ sepLit = [' '])
    (value : List Char) (stf : ParseState)
    (h : parseChunks [([], Std.stdLongYear), (['-'], Std.stdZeroMonth), (['-'], Std.stdZeroDay),
        (sepLit, Std.stdHour), ([':'], Std.stdZeroMinute), ([':'], Std.stdZeroSecond)]
        ParseState.init value = some stf) :
    (∃ sep hourText fracText,
      value = padded 4 stf.year ++ ('-' :: (padded 2 stf.month ++ ('-' :: (padded 2 stf.day
          ++ (sep ++ (hourText ++ (':' :: (padded 2 stf.min ++ (':' :: (padded 2 stf.sec
          ++ fracText))))))))))
      ∧ (sep = ['T'] ∨ (sep ≠ [] ∧ ∀ c ∈ sep, c = ' '))
      ∧ (hourText = padded 2 stf.hour ∨ (stf.hour < 10 ∧ hourText = padded 1 stf.hour))
      ∧ ((fracText = [] ∧ stf.nsec = 0)
        ∨ ∃ c ds, fracText = c :: ds ∧ commaOrPeriod c = true ∧ ds ≠ []
            ∧ (∀ d ∈ ds, isDigit d = true)
            ∧ padded 9 stf.nsec = (ds ++ List.replicate 9 '0').take 9))
    ∧ 1 ≤ stf.month ∧ stf.month ≤ 12 ∧ stf.hour < 24 ∧ stf.min < 60 ∧ stf.sec < 60
    ∧ stf.z = none ∧ stf.zoneOffset = -1 ∧ stf.year < 10000 ∧ stf.nsec < 1000000000 := by
  obtain ⟨v1, s1, v2, hk1, hp1, h⟩ := parseChunks_cons_inv _ _ _ _ _ _ h
  obtain ⟨v3, s2, v4, hk2, hp2, h⟩ := parseChunks_cons_inv _ _ _ _ _ _ h
  obtain ⟨v5, s3, v6, hk3, hp3, h⟩ := parseChunks_cons_inv _ _ _ _ _ _ h
  obtain ⟨v7, s4, v8, hk4, hp4, h⟩ := parseChunks_cons_inv _ _ _ _ _ _ h
  obtain ⟨v9, s5, v10, hk5, hp5, h⟩ := parseChunks_cons_inv _ _ _ _ _ _ h
  obtain ⟨v11, s6, v12, hk6, hp6, h⟩ := parseChunks_cons_inv _ _ _ _ _ _ h
  obtain ⟨hend, hst⟩ := parseChunks_nil_inv _ _ _ h
  rw [skip_nil] at hk1
  have e1 : value = v1 := Option.some.inj hk1
  have e3 := skip_char_inv '-' (by decide) _ _ hk2
  have e5 := skip_char_inv '-' (by decide) _ _ hk3
  have e9 := skip_char_inv ':' (by decide) _ _ hk5
  have e11 := skip_char_inv ':' (by decide) _ _ hk6
  obtain ⟨y, hy, ey, sy⟩ := parseStd_year_inv _ _ _ _ _ hp1
  obtain ⟨mo, hmo1, hmo12, emo, smo⟩ := parseStd_month_inv _ _ _ _ _ hp2
  obtain ⟨d, ed, sd⟩ := parseStd_day_inv _ _ _ _ _ hp3
  obtain ⟨hr, hourText, hhr, ehr, hform, shr⟩ := parseStd_hour_inv _ _ _ _ _ hp4
  obtain ⟨mi, hmi, emi, smi⟩ := parseStd_minute_inv _ _ _ _ _ hp5
  obtain ⟨sc, tl, hsc, esc, hfr⟩ := parseStd_second_inv _ _ _ _ hp6
  have hsepinv : ∃ sep, v6 = sep ++ v7 ∧ (sep = ['T'] ∨ (sep ≠ [] ∧ ∀ c ∈ sep, c = ' ')) := by
    rcases hsep with hs | hs
    · rw [hs] at hk4
      exact ⟨['T'], skip_char_inv 'T' (by decide) _ _ hk4, Or.inl rfl⟩
    · rw [hs] at hk4
      obtain ⟨sep, hv, hall, hnil⟩ := skip_space_inv _ _ hk4
      refine ⟨sep, hv, Or.inr ⟨fun hs0 => ?_, hall⟩⟩
      have h7 : v7 = [] := hnil hs0
      rw [h7] at hp4
      simp [parseStd, getnum] at hp4
  obtain ⟨sep, esep, hsepform⟩ := hsepinv
  have hs5 : s5 = ⟨y, mo, d, hr, mi, 0, 0, none, -1⟩ := by
    rw [smi, shr, sd, smo, sy]; rfl
  have htext : value = padded 4 y ++ ('-' :: (padded 2 mo ++ ('-' :: (padded 2 d
      ++ (sep ++ (hourText ++ (':' :: (padded 2 mi ++ (':' :: (padded 2 sc
      ++ tl)))))))))) := by
    rw [e1, ey, e3, emo, e5, ed, esep, ehr, e9, emi, e11, esc]
  rcases parseFraction_inv _ _ _ _ hfr with ⟨h6, hrest⟩ | ⟨c, ds, ns, hv, hc, hne, hdig, h6, hpad, hns⟩
  · have hstf : stf = ⟨y, mo, d, hr, mi, sc, 0, none, -1⟩ := by rw [hst, h6, hs5]
    rw [hstf]
    refine ⟨⟨sep, hourText, tl, htext, hsepform, hform, Or.inl ⟨?_, rfl⟩⟩,
      hmo1, hmo12, hhr, hmi, hsc, rfl, rfl, hy, by norm_num⟩
    rw [← hrest, hend]
  · have hstf : stf = ⟨y, mo, d, hr, mi, sc, ns, none, -1⟩ := by rw [hst, h6, hs5]
    rw [hstf]
    refine ⟨⟨sep, hourText, tl, htext, hsepform, hform,
      Or.inr ⟨c, ds, ?_, hc, hne, hdig, hpad⟩⟩, hmo1, hmo12, hhr, hmi, hsc, rfl, rfl, hy, hns⟩
    rw [hv, hend, List.append_nil]

/-- What `Parse` accepts with a zoneless layout: the UTC time built from its
own civil fields, which are in range and are the ones written in the text. -/
theorem Parse_zoneless_inv (layout : Layout) (sepLit : List Char)
    (hsep : sepLit = ['T'] ∨ sepLit = [' '])
    (hchunks : layout.chunks = [([], Std.stdLongYear), (['-'], Std.stdZeroMonth),
        (['-'], Std.stdZeroDay), (sepLit, Std.stdHour), ([':'], Std.stdZeroMinute),
        ([':'], Std.stdZeroSecond)])
    (s : String) (t : Time) (h : Parse layout s = some t) :
    t.Location = Location.UTC
    ∧ t = Date t.Year t.Month t.Day t.Hour t.Minute t.Second t.Nanosecond
    ∧ t.Year < 10000 ∧ 1 ≤ t.Month ∧ t.Month ≤ 12 ∧ 1 ≤ t.Day ∧ t.Day ≤ daysIn t.Month t.Year
    ∧ t.Hour < 24 ∧ t.Minute < 60 ∧ t.Second < 60 ∧ t.Nanosecond < 1000000000
    ∧ ∃ sep hourText fracText,
      s.data = padded 4 t.Year ++ ('-' :: (padded 2 t.Month ++ ('-' :: (padded 2 t.Day
          ++ (sep ++ (hourText ++ (':' :: (padded 2 t.Minute ++ (':' :: (padded 2 t.Second
          ++ fracText))))))))))
      ∧ (sep = ['T'] ∨ (sep ≠ [] ∧ ∀ c ∈ sep, c = ' '))
      ∧ (hourText = padded 2 t.Hour ∨ (t.Hour < 10 ∧ hourText = padded 1 t.Hour))
      ∧ ((fracText = [] ∧ t.Nanosecond = 0)
        ∨ ∃ c ds, fracText = c :: ds ∧ commaOrPeriod c = true ∧ ds ≠ []
            ∧ (∀ d ∈ ds, isDigit d = true)
            ∧ padded 9 t.Nanosecond = (ds ++ List.replicate 9 '0').take 9) := by
  simp only [Parse, hchunks] at h
  cases hp : parseChunks [([], Std.stdLongYear), (['-'], Std.stdZeroMonth),
      (['-'], Std.stdZeroDay), (sepLit, Std.stdHour), ([':'], Std.stdZeroMinute),
      ([':'], Std.stdZeroSecond)] ParseState.init s.data with
  | none => simp only [hp] at h; cases h
  | some st =>
    simp only [hp] at h
    obtain ⟨hshape, hm1, hm12, hhr, hmi, hsc, hz, hzo, hy, hns⟩ :=
      parseChunks_zoneless_inv sepLit hsep s.data st hp
    by_cases hday : st.day < 1 ∨ daysIn st.month st.year < st.day
    · rw [if_pos hday] at h; cases h
    · rw [if_neg hday] at h
      simp only [hz, hzo, ne_eq, not_true_eq_false, if_false] at h
      have ht : t = Date st.year st.month st.day st.hour st.min st.sec st.nsec :=
        (Option.some.inj h).symm
      have hacc := accessors_of_Date st.year st.month st.day st.hour st.min st.sec st.nsec
        Location.UTC hm1 hm12 (by omega) (by omega) hhr hmi hsc t
        (by rw [ht]; simp [Date, Location.offset])
      obtain ⟨ay, amo, ad, ah, ami, asc, ans⟩ := hacc
      rw [ay, amo, ad, ah, ami, asc, ans]
      exact ⟨by rw [ht]; rfl, ht, hy, hm1, hm12, by omega, by omega, hhr, hmi, hsc, hns, hshape⟩

end GoTime

namespace Worker

open Json GoTime

/-! ## Lemmas about one iteration -/

/-- When the queue ends in `payload`, a successful `BRPop` returns it and leaves the rest. -/
theorem BRPop_tail (redis : String → List String) (key : String) (rest : List String)
    (payload : String) (hq : redis key = rest ++ [payload]) :
    BRPop false redis key = (BRPopResult.ok [key, payload], Function.update redis key rest) := by
  simp [BRPop, hq]

/-- An iteration that dequeues an undecodable payload only removes it from the queue. -/
theorem step_decode_error (config : Config) (o : Outcomes) (w : World) (rest : List String)
    (payload : String) (e : UnmarshalError)
    (hq : w.redis config.VoteQueue = rest ++ [payload]) (hpop : o.brpopErr = false)
    (hdec : Unmarshal payload = Except.error e) :
    processVotesStep config o w
      = { w with redis := Function.update w.redis config.VoteQueue rest } := by
  simp [processVotesStep, hpop, BRPop_tail w.redis config.VoteQueue rest payload hq, hdec]

/-- An iteration that dequeues a decodable payload goes on to the insert. -/
theorem step_decode_ok (config : Config) (o : Outcomes) (w : World) (rest : List String)
    (payload : String) (vote : Vote)
    (hq : w.redis config.VoteQueue = rest ++ [payload]) (hpop : o.brpopErr = false)
    (hdec : Unmarshal payload = Except.ok vote) :
    processVotesStep config o w
      = insertVote config o { w with redis := Function.update w.redis config.VoteQueue rest }
          payload vote := by
  simp [processVotesStep, hpop, BRPop_tail w.redis config.VoteQueue rest payload hq, hdec]

/-- The queue after one iteration: unchanged, or without its tail element, or
with its tail element moved to the head. -/
theorem step_queue_cases (config : Config) (o : Outcomes) (w : World) :
    (processVotesStep config o w).redis config.VoteQueue = w.redis config.VoteQueue
    ∨ ∃ rest payload, w.redis config.VoteQueue = rest ++ [payload]
        ∧ ((processVotesStep config o w).redis config.VoteQueue = rest
          ∨ (processVotesStep config o w).redis config.VoteQueue = payload :: rest) := by
  cases hpop : o.brpopErr with
  | true => left; simp [processVotesStep, BRPop, hpop]
  | false =>
    rcases List.eq_nil_or_concat (w.redis config.VoteQueue) with hnil | ⟨rest, payload, hq⟩
    · left; simp [processVotesStep, BRPop, hpop, hnil]
    · right
      have hq2 : w.redis config.VoteQueue = rest ++ [payload] := by simpa using hq
      refine ⟨rest, payload, hq2, ?_⟩
      cases hdec : Unmarshal payload with
      | error e =>
        left
        rw [step_decode_error config o w rest payload e hq2 hpop hdec]
        simp
      | ok vote =>
        rw [step_decode_ok config o w rest payload vote hq2 hpop hdec]
        cases hexec : o.execErr with
        | false => left; simp [insertVote, hexec]
        | true =>
          cases hpush : o.lpushErr with
          | false => right; simp [insertVote, hexec, LPush, hpush]
          | true => left; simp [insertVote, hexec, LPush, hpush]

/-- No iteration increases the number of copies of a payload in the queue. -/
theorem step_count_le (config : Config) (o : Outcomes) (w : World) (x : String) :
    ((processVotesStep config o w).redis config.VoteQueue).count x
      ≤ (w.redis config.VoteQueue).count x := by
  rcases step_queue_cases config o w with h | ⟨rest, payload, hq, h | h⟩
  · rw [h]
  · rw [h, hq]; simp
  · rw [h, hq]; simp [List.count_cons]

/-- No sequence of iterations increases the number of copies of a payload in the queue. -/
theorem processVotes_count_le (config : Config) (os : List Outcomes) (w : World) (x : String) :
    ((processVotes config os w).redis config.VoteQueue).count x
      ≤ (w.redis config.VoteQueue).count x := by
  induction os generalizing w with
  | nil => simp [processVotes]
  | cons o os ih =>
    exact le_trans (ih (processVotesStep config o w)) (step_count_le config o w x)

/-- An iteration whose `BRPop` fails only counts a Redis error. -/
theorem step_pop_error (config : Config) (o : Outcomes) (w : World) (hpop : o.brpopErr = true) :
    processVotesStep config o w = { w with redisErrors := w.redisErrors + 1 } := by
  simp [processVotesStep, BRPop, hpop]

/-- An iteration that times out on an empty queue changes nothing. -/
theorem step_pop_timeout (config : Config) (o : Outcomes) (w : World)
    (hpop : o.brpopErr = false) (hq : w.redis config.VoteQueue = []) :
    processVotesStep config o w = w := by
  simp [processVotesStep, BRPop, hpop, hq]

/-! ## Lemmas about decoding an object -/

/-- Storing a member whose value is a string or `null` whenever its key selects
a field saves no error. -/
theorem storeMember_savedError (st : DecodeState) (kv : String × JValue)
    (h : lookupField kv.1 ≠ none → kv.2.isStringOrNull = true) :
    (storeMember st kv).savedError = st.savedError := by
  unfold storeMember
  cases hl : lookupField kv.1 with
  | none => rfl
  | some f =>
    have hs := h (by simp [hl])
    cases hv : kv.2 <;> simp_all [JValue.isStringOrNull]

/-- Storing a member leaves a field unchanged unless the member's key selects it. -/
theorem storeMember_getField (st : DecodeState) (kv : String × JValue) (f : Field)
    (h : lookupField kv.1 ≠ some f) :
    getField (storeMember st kv).vote f = getField st.vote f := by
  unfold storeMember
  cases hl : lookupField kv.1 with
  | none => rfl
  | some g =>
    have hg : g ≠ f := fun e => h (by rw [hl, e])
    cases hv : kv.2 <;> simp only [saveError] <;> try (split <;> rfl)
    cases g <;> cases f <;> simp_all [setField, getField]

/-- Storing members whose field-selecting keys carry strings or `null` saves no error. -/
theorem foldl_storeMember_savedError (members : List (String × JValue)) (st : DecodeState)
    (h : ∀ kv ∈ members, lookupField kv.1 ≠ none → kv.2.isStringOrNull = true) :
    (members.foldl storeMember st).savedError = st.savedError := by
  induction members generalizing st with
  | nil => rfl
  | cons kv rest ih =>
    rw [List.foldl_cons, ih (storeMember st kv) (fun kv2 hm => h kv2 (List.mem_cons_of_mem _ hm))]
    exact storeMember_savedError st kv (h kv (List.mem_cons_self _ _))

/-- A field that no member names keeps its value. -/
theorem foldl_storeMember_getField (members : List (String × JValue)) (st : DecodeState)
    (f : Field) (h : namesField members f = false) :
    getField (members.foldl storeMember st).vote f = getField st.vote f := by
  induction members generalizing st with
  | nil => rfl
  | cons kv rest ih =>
    simp only [namesField, List.any_cons, Bool.or_eq_false_iff, decide_eq_false_iff_not] at h
    rw [List.foldl_cons, ih (storeMember st kv) (by simpa [namesField] using h.2)]
    exact storeMember_getField st kv f h.1

/-- A payload that parses to an object whose field-selecting keys carry strings
or `null` decodes without error, and the fields it does not name are empty. -/
theorem Unmarshal_object (payload : String) (members : List (String × JValue))
    (hjson : parseJSON payload = some (JValue.obj members))
    (hstr : ∀ kv ∈ members, lookupField kv.1 ≠ none → kv.2.isStringOrNull = true) :
    ∃ vote, Unmarshal payload = Except.ok vote
      ∧ ∀ f, namesField members f = false → getField vote f = "" := by
  refine ⟨(members.foldl storeMember { vote := zeroVote, savedError := none }).vote, ?_, ?_⟩
  · have h := foldl_storeMember_savedError members { vote := zeroVote, savedError := none } hstr
    simp only [Unmarshal, hjson, storeValue]
    rw [h]
  · intro f hf
    rw [foldl_storeMember_getField members _ f hf]
    cases f <;> rfl

/-! ## Lemmas about runs with producers -/

/-- With a successful insert, an iteration moves a vote from the queue to the
table or drops an undecodable payload: the number of rows whose choice
satisfies `P` plus the number of queued payloads that decode to such a choice
does not change. -/
theorem step_balance (config : Config) (o : Outcomes) (w : World) (P : String → Bool)
    (hexec : o.execErr = false) :
    (processVotesStep config o w).votes.countP (fun r => P r.vote)
        + ((processVotesStep config o w).redis config.VoteQueue).countP (decodesWith P)
      = w.votes.countP (fun r => P r.vote)
        + (w.redis config.VoteQueue).countP (decodesWith P) := by
  cases hpop : o.brpopErr with
  | true => simp [processVotesStep, BRPop, hpop]
  | false =>
    rcases List.eq_nil_or_concat (w.redis config.VoteQueue) with hnil | ⟨rest, payload, hq⟩
    · simp [processVotesStep, BRPop, hpop, hnil]
    · have hq2 : w.redis config.VoteQueue = rest ++ [payload] := by simpa using hq
      cases hdec : Unmarshal payload with
      | error e =>
        rw [step_decode_error config o w rest payload e hq2 hpop hdec, hq2]
        simp [List.countP_append, decodesWith, hdec]
      | ok vote =>
        rw [step_decode_ok config o w rest payload vote hq2 hpop hdec, hq2]
        simp [insertVote, hexec, List.countP_append, decodesWith, hdec, List.countP_cons]
        omega

/-- The balance of `step_balance` over a run of events: every pushed payload
that decodes to a choice satisfying `P` adds one. -/
theorem run_balance (config : Config) (P : String → Bool) (events : List Event) (w : World)
    (hexec : ∀ o ∈ iterations events, o.execErr = false) :
    (run config events w).votes.countP (fun r => P r.vote)
        + ((run config events w).redis config.VoteQueue).countP (decodesWith P)
      = w.votes.countP (fun r => P r.vote)
        + (w.redis config.VoteQueue).countP (decodesWith P)
        + (pushed events).countP (decodesWith P) := by
  induction events generalizing w with
  | nil => simp [run, pushed]
  | cons ev rest ih =>
    have hrun : run config (ev :: rest) w = run config rest (runEvent config w ev) := rfl
    cases ev with
    | push payload =>
      rw [hrun, ih (runEvent config w (Event.push payload))
        (fun o ho => hexec o (by simpa [iterations] using ho))]
      simp [runEvent, LPush, pushed, List.countP_cons]
      omega
    | iterate o =>
      rw [hrun, ih (runEvent config w (Event.iterate o))
        (fun o2 ho => hexec o2 (by simp [iterations, ho]))]
      have hb := step_balance config o w P (hexec o (by simp [iterations]))
      simp only [runEvent, pushed]
      omega

/-! ## The claims -/

/-- C1: when the dequeued payload fails to decode, one iteration of `processVotes`
removes it from the queue, issues no insert (the table is unchanged) and no
`LPush`; whatever iterations follow, the queue never holds more copies of any
payload than the rest of the queue held, so the dropped payload does not come back. -/
theorem C1_undecodable_payload_is_dropped (config : Config) (o : Outcomes) (w : World)
    (rest : List String) (payload : String) (e : UnmarshalError)
    (hq : w.redis config.VoteQueue = rest ++ [payload]) (hpop : o.brpopErr = false)
    (hdec : Unmarshal payload = Except.error e) :
    (processVotesStep config o w).redis config.VoteQueue = rest
    ∧ (processVotesStep config o w).votes = w.votes
    ∧ (processVotesStep config o w).execLog = w.execLog
    ∧ (processVotesStep config o w).lpushLog = w.lpushLog
    ∧ ∀ (os : List Outcomes) (x : String),
        ((processVotes config os (processVotesStep config o w)).redis config.VoteQueue).count x
          ≤ rest.count x := by
  have hstep := step_decode_error config o w rest payload e hq hpop hdec
  have hrest : (processVotesStep config o w).redis config.VoteQueue = rest := by
    rw [hstep]; simp
  refine ⟨hrest, by rw [hstep], by rw [hstep], by rw [hstep], ?_⟩
  intro os x
  have h := processVotes_count_le config os (processVotesStep config o w) x
  rwa [hrest] at h

/-- C1 at the queue `[catsPayload, "invalid json"]` (the payload of
`TestInvalidVoteDataHandling`): the malformed payload at the tail is dropped
and the well-formed one stays. -/
theorem C1_undecodable_payload_is_dropped_witness :
    Unmarshal "invalid json" = Except.error UnmarshalError.syntaxError
    ∧ (processVotesStep votesConfig allOk
        (worldWithQueue [catsPayload, "invalid json"])).redis votesConfig.VoteQueue = [catsPayload]
    ∧ (processVotesStep votesConfig allOk (worldWithQueue [catsPayload, "invalid json"])).votes
        = (worldWithQueue [catsPayload, "invalid json"]).votes
    ∧ (processVotesStep votesConfig allOk (worldWithQueue [catsPayload, "invalid json"])).execLog
        = (worldWithQueue [catsPayload, "invalid json"]).execLog
    ∧ (processVotesStep votesConfig allOk (worldWithQueue [catsPayload, "invalid json"])).lpushLog
        = (worldWithQueue [catsPayload, "invalid json"]).lpushLog
    ∧ ∀ (os : List Outcomes) (x : String),
        ((processVotes votesConfig os (processVotesStep votesConfig allOk
            (worldWithQueue [catsPayload, "invalid json"]))).redis votesConfig.VoteQueue).count x
          ≤ [catsPayload].count x :=
  ⟨by decide,
   C1_undecodable_payload_is_dropped votesConfig allOk (worldWithQueue [catsPayload, "invalid json"])
     [catsPayload] "invalid json" UnmarshalError.syntaxError (by decide) (by decide) (by decide)⟩

/-- C2: when the dequeued payload decodes and the insert fails, one iteration adds
no row, adds exactly one to `dbErrors`, leaves every `votesProcessed` counter
as it was, and issues `LPush` on the queue it popped from with the raw string
that was dequeued; when that push succeeds the raw string is at the head of the queue. -/
theorem C2_insert_failure_requeues_raw_payload (config : Config) (o : Outcomes) (w : World)
    (rest : List String) (payload : String) (vote : Vote)
    (hq : w.redis config.VoteQueue = rest ++ [payload]) (hpop : o.brpopErr = false)
    (hdec : Unmarshal payload = Except.ok vote) (hexec : o.execErr = true) :
    (processVotesStep config o w).votes = w.votes
    ∧ (processVotesStep config o w).dbErrors = w.dbErrors + 1
    ∧ (processVotesStep config o w).votesProcessed = w.votesProcessed
    ∧ (processVotesStep config o w).lpushLog = w.lpushLog ++ [(config.VoteQueue, payload)]
    ∧ (o.lpushErr = false →
        (processVotesStep config o w).redis config.VoteQueue = payload :: rest) := by
  rw [step_decode_ok config o w rest payload vote hq hpop hdec]
  refine ⟨by simp [insertVote, hexec], by simp [insertVote, hexec], by simp [insertVote, hexec],
    by simp [insertVote, hexec], ?_⟩
  intro hpush
  simp [insertVote, hexec, LPush, hpush]

/-- C2 at the queue `["other", catsPayload]` with a failing insert and a
successful push: no row, one database error, the raw payload at the head. -/
theorem C2_insert_failure_requeues_raw_payload_witness :
    Unmarshal catsPayload = Except.ok ⟨"cats", "v1", "2024-01-01T10:00:00Z"⟩
    ∧ insertFails.execErr = true
    ∧ (processVotesStep votesConfig insertFails (worldWithQueue ["other", catsPayload])).votes = []
    ∧ (processVotesStep votesConfig insertFails
        (worldWithQueue ["other", catsPayload])).dbErrors = 1
    ∧ (processVotesStep votesConfig insertFails (worldWithQueue ["other", catsPayload])).lpushLog
        = [("votes", catsPayload)]
    ∧ (processVotesStep votesConfig insertFails
        (worldWithQueue ["other", catsPayload])).redis "votes" = [catsPayload, "other"] :=
  have h := C2_insert_failure_requeues_raw_payload votesConfig insertFails
    (worldWithQueue ["other", catsPayload]) ["other"] catsPayload
    ⟨"cats", "v1", "2024-01-01T10:00:00Z"⟩ (by decide) (by decide) (by decide) (by decide)
  ⟨by decide, by decide, h.1, h.2.1, h.2.2.2.1, h.2.2.2.2 (by decide)⟩

/-- C3: when the dequeued payload decodes, `parseTimestamp` accepts its timestamp
and the insert succeeds, one iteration appends exactly one row carrying the
decoded vote and voter id and the parsed time, adds one to the `votesProcessed`
counter of that vote and to no other, leaves `dbErrors` as it was, issues no
`LPush`, and leaves the rest of the queue. -/
theorem C3_successful_vote_is_recorded_once (config : Config) (o : Outcomes) (w : World)
    (rest : List String) (payload : String) (vote : Vote) (t : Time)
    (hq : w.redis config.VoteQueue = rest ++ [payload]) (hpop : o.brpopErr = false)
    (hdec : Unmarshal payload = Except.ok vote)
    (hts : parseTimestamp vote.Timestamp = Except.ok t) (hexec : o.execErr = false) :
    (processVotesStep config o w).votes = w.votes ++ [⟨vote.Vote, vote.VoterID, t⟩]
    ∧ (∀ c : String, (processVotesStep config o w).votesProcessed c
        = w.votesProcessed c + (if c = vote.Vote then 1 else 0))
    ∧ (processVotesStep config o w).dbErrors = w.dbErrors
    ∧ (processVotesStep config o w).lpushLog = w.lpushLog
    ∧ (processVotesStep config o w).redis config.VoteQueue = rest := by
  rw [step_decode_ok config o w rest payload vote hq hpop hdec]
  refine ⟨by simp [insertVote, hexec, resolveTimestamp, hts], ?_, by simp [insertVote, hexec],
    by simp [insertVote, hexec], by simp [insertVote, hexec]⟩
  intro c
  by_cases hc : c = vote.Vote
  · simp [insertVote, hexec, incLabel, hc]
  · simp [insertVote, hexec, incLabel, hc]

/-- C3 on the first scenario of the specification: one row
`(cats, v1, 2024-01-01T10:00:00Z)`. -/
theorem C3_successful_vote_is_recorded_once_witness :
    parseTimestamp "2024-01-01T10:00:00Z" = Except.ok ⟨1704103200, 0, Location.UTC⟩
    ∧ (processVotesStep votesConfig allOk (worldWithQueue [catsPayload])).votes
        = (worldWithQueue [catsPayload]).votes
            ++ [⟨"cats", "v1", ⟨1704103200, 0, Location.UTC⟩⟩]
    ∧ (∀ c : String, (processVotesStep votesConfig allOk
          (worldWithQueue [catsPayload])).votesProcessed c
        = (worldWithQueue [catsPayload]).votesProcessed c + (if c = "cats" then 1 else 0))
    ∧ (processVotesStep votesConfig allOk (worldWithQueue [catsPayload])).dbErrors
        = (worldWithQueue [catsPayload]).dbErrors
    ∧ (processVotesStep votesConfig allOk (worldWithQueue [catsPayload])).lpushLog
        = (worldWithQueue [catsPayload]).lpushLog
    ∧ (processVotesStep votesConfig allOk (worldWithQueue [catsPayload])).redis
        votesConfig.VoteQueue = [] :=
  ⟨by decide,
   C3_successful_vote_is_recorded_once votesConfig allOk (worldWithQueue [catsPayload]) []
     catsPayload ⟨"cats", "v1", "2024-01-01T10:00:00Z"⟩ ⟨1704103200, 0, Location.UTC⟩
     (by decide) (by decide) (by decide) (by decide) (by decide)⟩

/-- C4 (the code loses the vote): on the queue `[catsPayload]`, when the insert
fails and the requeue `LPush` fails as well, the iteration ends with the vote in
neither the table nor the queue, and only `dbErrors` records anything. -/
theorem C4_vote_lost_when_requeue_push_fails :
    Unmarshal catsPayload = Except.ok ⟨"cats", "v1", "2024-01-01T10:00:00Z"⟩
    ∧ (processVotesStep votesConfig insertAndPushFail (worldWithQueue [catsPayload])).votes = []
    ∧ (processVotesStep votesConfig insertAndPushFail
        (worldWithQueue [catsPayload])).redis "votes" = []
    ∧ (processVotesStep votesConfig insertAndPushFail
        (worldWithQueue [catsPayload])).redisErrors = 0
    ∧ (processVotesStep votesConfig insertAndPushFail
        (worldWithQueue [catsPayload])).dbErrors = 1 := by
  decide

/-- C5: from a queue holding one decodable payload and an empty table, a failed
insert (with a successful requeue push) followed by a successful insert leaves
exactly one row for the vote and an empty queue. -/
theorem C5_requeue_then_success_gives_one_row (config : Config) (o1 o2 : Outcomes) (w : World)
    (payload : String) (vote : Vote)
    (hq : w.redis config.VoteQueue = [payload]) (hvotes : w.votes = [])
    (hdec : Unmarshal payload = Except.ok vote)
    (hpop1 : o1.brpopErr = false) (hexec1 : o1.execErr = true) (hpush1 : o1.lpushErr = false)
    (hpop2 : o2.brpopErr = false) (hexec2 : o2.execErr = false) :
    (processVotes config [o1, o2] w).votes
        = [⟨vote.Vote, vote.VoterID, resolveTimestamp o2.now vote.Timestamp⟩]
    ∧ (processVotes config [o1, o2] w).votes.length = 1
    ∧ (processVotes config [o1, o2] w).redis config.VoteQueue = [] := by
  have hq1 : w.redis config.VoteQueue = [] ++ [payload] := by simpa using hq
  have h1 := step_decode_ok config o1 w [] payload vote hq1 hpop1 hdec
  have hq2 : (processVotesStep config o1 w).redis config.VoteQueue = [] ++ [payload] := by
    rw [h1]; simp [insertVote, hexec1, LPush, hpush1]
  have hv1 : (processVotesStep config o1 w).votes = [] := by
    rw [h1]; simp [insertVote, hexec1, hvotes]
  have h2 := step_decode_ok config o2 (processVotesStep config o1 w) [] payload vote hq2 hpop2 hdec
  have hfinal : processVotes config [o1, o2] w
      = processVotesStep config o2 (processVotesStep config o1 w) := rfl
  rw [hfinal, h2]
  simp [insertVote, hexec2, hv1]

/-- C5 on the first scenario of the specification, with the first insert failing. -/
theorem C5_requeue_then_success_gives_one_row_witness :
    (worldWithQueue [catsPayload]).redis votesConfig.VoteQueue = [catsPayload]
    ∧ (processVotes votesConfig [insertFails, allOk] (worldWithQueue [catsPayload])).votes
        = [⟨"cats", "v1", ⟨1704103200, 0, Location.UTC⟩⟩]
    ∧ (processVotes votesConfig [insertFails, allOk]
        (worldWithQueue [catsPayload])).votes.length = 1
    ∧ (processVotes votesConfig [insertFails, allOk]
        (worldWithQueue [catsPayload])).redis votesConfig.VoteQueue = [] :=
  ⟨by decide,
   C5_requeue_then_success_gives_one_row votesConfig insertFails allOk
     (worldWithQueue [catsPayload]) catsPayload ⟨"cats", "v1", "2024-01-01T10:00:00Z"⟩
     (by decide) (by decide) (by decide) (by decide) (by decide) (by decide) (by decide)
     (by decide)⟩

/-- C6: when the dequeued payload decodes but `parseTimestamp` rejects its
timestamp, the iteration still issues the insert, with the decoded vote and voter
id and `time.Now()` as timestamp; when the insert succeeds exactly one row is
added, the payload leaves the queue and no `LPush` is issued. -/
theorem C6_unparseable_timestamp_uses_now (config : Config) (o : Outcomes) (w : World)
    (rest : List String) (payload : String) (vote : Vote) (msg : String)
    (hq : w.redis config.VoteQueue = rest ++ [payload]) (hpop : o.brpopErr = false)
    (hdec : Unmarshal payload = Except.ok vote)
    (hts : parseTimestamp vote.Timestamp = Except.error msg) :
    (processVotesStep config o w).execLog = w.execLog ++ [⟨vote.Vote, vote.VoterID, o.now⟩]
    ∧ (o.execErr = false →
        (processVotesStep config o w).votes = w.votes ++ [⟨vote.Vote, vote.VoterID, o.now⟩]
        ∧ (processVotesStep config o w).redis config.VoteQueue = rest
        ∧ (processVotesStep config o w).lpushLog = w.lpushLog) := by
  rw [step_decode_ok config o w rest payload vote hq hpop hdec]
  constructor
  · cases hexec : o.execErr <;> simp [insertVote, hexec, resolveTimestamp, hts]
  · intro hexec
    simp [insertVote, hexec, resolveTimestamp, hts]

/-- C6 on a payload whose timestamp is the word `yesterday`: the row carries the clock reading. -/
theorem C6_unparseable_timestamp_uses_now_witness :
    Unmarshal badTimePayload = Except.ok ⟨"dogs", "v2", "yesterday"⟩
    ∧ parseTimestamp "yesterday" = Except.error "unable to parse timestamp: yesterday"
    ∧ (processVotesStep votesConfig allOk (worldWithQueue [badTimePayload])).execLog
        = [⟨"dogs", "v2", noon⟩]
    ∧ (processVotesStep votesConfig allOk (worldWithQueue [badTimePayload])).votes
        = [⟨"dogs", "v2", noon⟩]
    ∧ (processVotesStep votesConfig allOk (worldWithQueue [badTimePayload])).redis "votes" = []
    ∧ (processVotesStep votesConfig allOk (worldWithQueue [badTimePayload])).lpushLog = [] :=
  have h := C6_unparseable_timestamp_uses_now votesConfig allOk (worldWithQueue [badTimePayload])
    [] badTimePayload ⟨"dogs", "v2", "yesterday"⟩ "unable to parse timestamp: yesterday"
    (by decide) (by decide) (by decide) (by decide)
  ⟨by decide, by decide, h.1, (h.2 (by decide)).1, (h.2 (by decide)).2.1, (h.2 (by decide)).2.2⟩

/-- C7, as stated, fails: the payloads `{}` and `{"vote":"cats"}` are valid JSON
and lack fields, yet they decode without error, with the missing fields empty,
and the iteration creates a row. -/
theorem C7_payload_without_fields_decodes :
    validJSON "\x7b\x7d" = true ∧ lacksField "\x7b\x7d" = true
    ∧ Unmarshal "\x7b\x7d" = Except.ok ⟨"", "", ""⟩
    ∧ (processVotesStep votesConfig allOk (worldWithQueue ["\x7b\x7d"])).votes
        = [⟨"", "", noon⟩]
    ∧ validJSON voteOnlyPayload = true ∧ lacksField voteOnlyPayload = true
    ∧ Unmarshal voteOnlyPayload = Except.ok ⟨"cats", "", ""⟩
    ∧ (processVotesStep votesConfig allOk (worldWithQueue [voteOnlyPayload])).votes
        = [⟨"cats", "", noon⟩] := by
  decide

/-- C7 (amended): no field is required. For every payload that is a JSON object
in which each member naming a field of `Vote` has a string or `null` value, the
decode step succeeds, every field that no member names is the empty string, and
the iteration issues the insert with the decoded values, creating one row when
the insert succeeds. -/
theorem C7_fields_are_optional (config : Config) (o : Outcomes) (w : World)
    (rest : List String) (payload : String) (members : List (String × JValue))
    (hq : w.redis config.VoteQueue = rest ++ [payload]) (hpop : o.brpopErr = false)
    (hjson : parseJSON payload = some (JValue.obj members))
    (hstr : ∀ kv ∈ members, lookupField kv.1 ≠ none → kv.2.isStringOrNull = true) :
    ∃ vote : Vote, Unmarshal payload = Except.ok vote
      ∧ (∀ f, namesField members f = false → getField vote f = "")
      ∧ (processVotesStep config o w).execLog
          = w.execLog ++ [⟨vote.Vote, vote.VoterID, resolveTimestamp o.now vote.Timestamp⟩]
      ∧ (o.execErr = false → (processVotesStep config o w).votes
          = w.votes ++ [⟨vote.Vote, vote.VoterID, resolveTimestamp o.now vote.Timestamp⟩]) := by
  obtain ⟨vote, hdec, hmissing⟩ := Unmarshal_object payload members hjson hstr
  refine ⟨vote, hdec, hmissing, ?_, ?_⟩
  · rw [step_decode_ok config o w rest payload vote hq hpop hdec]
    cases hexec : o.execErr <;> simp [insertVote, hexec]
  · intro hexec
    rw [step_decode_ok config o w rest payload vote hq hpop hdec]
    simp [insertVote, hexec]

/-- C7 (amended) on the payload `{"vote":"cats"}`. -/
theorem C7_fields_are_optional_witness :
    parseJSON voteOnlyPayload = some (JValue.obj [("vote", JValue.str "cats")])
    ∧ ∃ vote : Vote, Unmarshal voteOnlyPayload = Except.ok vote
      ∧ (∀ f, namesField [("vote", JValue.str "cats")] f = false → getField vote f = "")
      ∧ (processVotesStep votesConfig allOk (worldWithQueue [voteOnlyPayload])).execLog
          = (worldWithQueue [voteOnlyPayload]).execLog
            ++ [⟨vote.Vote, vote.VoterID, resolveTimestamp allOk.now vote.Timestamp⟩]
      ∧ (allOk.execErr = false →
          (processVotesStep votesConfig allOk (worldWithQueue [voteOnlyPayload])).votes
          = (worldWithQueue [voteOnlyPayload]).votes
            ++ [⟨vote.Vote, vote.VoterID, resolveTimestamp allOk.now vote.Timestamp⟩]) :=
  ⟨rfl,
   C7_fields_are_optional votesConfig allOk (worldWithQueue [voteOnlyPayload]) []
     voteOnlyPayload [("vote", JValue.str "cats")] (by decide) (by decide) rfl
     (by intro kv hkv _; simp at hkv; subst hkv; rfl)⟩

/-- C8, as stated, fails: with another payload waiting in the queue, the dequeue
after a failed insert returns that other payload, not the one just requeued. -/
theorem C8_next_dequeue_is_not_the_requeued_payload :
    (processVotesStep votesConfig insertFails
        (worldWithQueue ["other", catsPayload])).redis "votes" = [catsPayload, "other"]
    ∧ nextDequeue votesConfig
        (processVotesStep votesConfig insertFails (worldWithQueue ["other", catsPayload]))
        = some "other"
    ∧ nextDequeue votesConfig
        (processVotesStep votesConfig insertFails (worldWithQueue ["other", catsPayload]))
        ≠ some catsPayload := by
  decide

/-- C8 (amended): after a failed insert and a successful push the requeued
payload is at the head of the list, the end opposite to the one `BRPop` takes
from: the next dequeue returns it only when the queue held nothing else, and
otherwise returns the payload that was next in line before. -/
theorem C8_requeue_goes_behind_waiting_payloads (config : Config) (o : Outcomes) (w : World)
    (rest : List String) (payload : String) (vote : Vote)
    (hq : w.redis config.VoteQueue = rest ++ [payload]) (hpop : o.brpopErr = false)
    (hdec : Unmarshal payload = Except.ok vote) (hexec : o.execErr = true)
    (hpush : o.lpushErr = false) :
    (processVotesStep config o w).redis config.VoteQueue = payload :: rest
    ∧ (rest = [] → nextDequeue config (processVotesStep config o w) = some payload)
    ∧ (∀ (front : List String) (older : String), rest = front ++ [older] →
        nextDequeue config (processVotesStep config o w) = some older) := by
  have hqueue : (processVotesStep config o w).redis config.VoteQueue = payload :: rest := by
    rw [step_decode_ok config o w rest payload vote hq hpop hdec]
    simp [insertVote, hexec, LPush, hpush]
  refine ⟨hqueue, ?_, ?_⟩
  · intro hrest
    have h : (processVotesStep config o w).redis config.VoteQueue = [] ++ [payload] := by
      rw [hqueue, hrest]; rfl
    simp [nextDequeue, BRPop_tail _ config.VoteQueue [] payload h]
  · intro front older hrest
    have h : (processVotesStep config o w).redis config.VoteQueue
        = (payload :: front) ++ [older] := by
      rw [hqueue, hrest]; rfl
    simp [nextDequeue, BRPop_tail _ config.VoteQueue (payload :: front) older h]

/-- C8 (amended) at the queue `["other", catsPayload]`. -/
theorem C8_requeue_goes_behind_waiting_payloads_witness :
    Unmarshal catsPayload = Except.ok ⟨"cats", "v1", "2024-01-01T10:00:00Z"⟩
    ∧ (processVotesStep votesConfig insertFails
        (worldWithQueue ["other", catsPayload])).redis "votes" = [catsPayload, "other"]
    ∧ nextDequeue votesConfig
        (processVotesStep votesConfig insertFails (worldWithQueue ["other", catsPayload]))
        = some "other" :=
  have h := C8_requeue_goes_behind_waiting_payloads votesConfig insertFails
    (worldWithQueue ["other", catsPayload]) ["other"] catsPayload
    ⟨"cats", "v1", "2024-01-01T10:00:00Z"⟩ (by decide) (by decide) (by decide) (by decide)
    (by decide)
  ⟨by decide, h.1, h.2.2 [] "other" (by decide)⟩

/-- C9, as stated, fails: a payload that is valid JSON but gives `vote` a number
is pushed and the queue is drained with a working insert; no row is added,
although one payload was pushed and none is syntactically invalid. -/
theorem C9_valid_json_payload_gives_no_row :
    validJSON numberVotePayload = true
    ∧ (run votesConfig [Event.push numberVotePayload, Event.iterate allOk]
        emptyWorld).redis "votes" = []
    ∧ (run votesConfig [Event.push numberVotePayload, Event.iterate allOk]
        emptyWorld).votes.length = 0
    ∧ (pushed [Event.push numberVotePayload, Event.iterate allOk]).length
        - (pushed [Event.push numberVotePayload, Event.iterate allOk]).countP
            (fun p => !validJSON p) = 1 := by
  decide

/-- C9 (amended): producers push payloads and the single consumer iterates, in any
interleaving, starting from an empty queue; if every insert succeeds and the
queue is empty at the end, the number of rows added is the number of pushed
payloads minus the number of those that fail to decode, and for every choice
`c` the number of added rows with vote `c` is the number of pushed payloads
that decode to a vote for `c`. -/
theorem C9_drained_rows_match_decodable_payloads (config : Config) (events : List Event)
    (w : World) (hempty : w.redis config.VoteQueue = [])
    (hexec : ∀ o ∈ iterations events, o.execErr = false)
    (hdrained : (run config events w).redis config.VoteQueue = []) :
    (run config events w).votes.length
        = w.votes.length
          + ((pushed events).length - (pushed events).countP (fun p => !decodes p))
    ∧ ∀ c : String, (run config events w).votes.countP (fun r => r.vote = c)
        = w.votes.countP (fun r => r.vote = c) + (pushed events).countP (decodesTo c) := by
  constructor
  · have h := run_balance config (fun _ => true) events w hexec
    have hlen := List.length_eq_countP_add_countP (fun p => decodes p) (pushed events)
    have hneg : (pushed events).countP (fun p => !decodes p)
        = (pushed events).countP (fun p => ¬ (decodes p = true)) := by
      congr 1; funext p; cases decodes p <;> simp
    rw [hdrained, hempty] at h
    simp only [List.countP_true, List.countP_nil, Nat.add_zero] at h
    have hd : (pushed events).countP (decodesWith fun _ => true)
        = (pushed events).countP (fun p => decodes p) := rfl
    omega
  · intro c
    have h := run_balance config (fun v => v = c) events w hexec
    rw [hdrained, hempty] at h
    simpa [decodesTo] using h

/-- C9 (amended) on three pushes, one of them malformed, interleaved with three iterations. -/
theorem C9_drained_rows_match_decodable_payloads_witness :
    (run votesConfig [Event.push catsPayload, Event.push "not json", Event.iterate allOk,
        Event.push badTimePayload, Event.iterate allOk, Event.iterate allOk]
        emptyWorld).redis votesConfig.VoteQueue = []
    ∧ (run votesConfig [Event.push catsPayload, Event.push "not json", Event.iterate allOk,
        Event.push badTimePayload, Event.iterate allOk, Event.iterate allOk]
        emptyWorld).votes.length = 0 + (3 - 1)
    ∧ ∀ c : String,
        (run votesConfig [Event.push catsPayload, Event.push "not json", Event.iterate allOk,
          Event.push badTimePayload, Event.iterate allOk, Event.iterate allOk]
          emptyWorld).votes.countP (fun r => r.vote = c)
        = 0 + [catsPayload, "not json", badTimePayload].countP (decodesTo c) :=
  ⟨by decide,
   C9_drained_rows_match_decodable_payloads votesConfig
     [Event.push catsPayload, Event.push "not json", Event.iterate allOk,
      Event.push badTimePayload, Event.iterate allOk, Event.iterate allOk]
     emptyWorld (by decide) (by decide) (by decide)⟩

/-- C10, as stated, fails: on the payload `not json` the decode fails and the
iteration changes neither error counter. -/
theorem C10_decode_failure_increments_no_counter :
    Unmarshal "not json" = Except.error UnmarshalError.syntaxError
    ∧ (processVotesStep votesConfig allOk (worldWithQueue ["not json"])).redisErrors
        = (worldWithQueue ["not json"]).redisErrors
    ∧ (processVotesStep votesConfig allOk (worldWithQueue ["not json"])).dbErrors
        = (worldWithQueue ["not json"]).dbErrors
    ∧ ¬ ((processVotesStep votesConfig allOk (worldWithQueue ["not json"])).redisErrors
          + (processVotesStep votesConfig allOk (worldWithQueue ["not json"])).dbErrors
        = (worldWithQueue ["not json"]).redisErrors
          + (worldWithQueue ["not json"]).dbErrors + 1) := by
  decide

/-- C10 (amended): when the dequeued payload fails to decode, the iteration
creates no row and changes no metric: `redisErrors`, `dbErrors`, every
`votesProcessed` and `healthChecks` counter and the duration histogram are as before. -/
theorem C10_decode_failure_leaves_metrics (config : Config) (o : Outcomes) (w : World)
    (rest : List String) (payload : String) (e : UnmarshalError)
    (hq : w.redis config.VoteQueue = rest ++ [payload]) (hpop : o.brpopErr = false)
    (hdec : Unmarshal payload = Except.error e) :
    (processVotesStep config o w).votes = w.votes
    ∧ (processVotesStep config o w).redisErrors = w.redisErrors
    ∧ (processVotesStep config o w).dbErrors = w.dbErrors
    ∧ (processVotesStep config o w).votesProcessed = w.votesProcessed
    ∧ (processVotesStep config o w).healthChecks = w.healthChecks
    ∧ (processVotesStep config o w).processTime = w.processTime := by
  rw [step_decode_error config o w rest payload e hq hpop hdec]
  exact ⟨rfl, rfl, rfl, rfl, rfl, rfl⟩

/-- C10 (amended) on the payload `not json`. -/
theorem C10_decode_failure_leaves_metrics_witness :
    Unmarshal "not json" = Except.error UnmarshalError.syntaxError
    ∧ (processVotesStep votesConfig allOk (worldWithQueue ["not json"])).votes = []
    ∧ (processVotesStep votesConfig allOk (worldWithQueue ["not json"])).redisErrors = 0
    ∧ (processVotesStep votesConfig allOk (worldWithQueue ["not json"])).dbErrors = 0 :=
  have h := C10_decode_failure_leaves_metrics votesConfig allOk (worldWithQueue ["not json"])
    [] "not json" UnmarshalError.syntaxError (by decide) (by decide) (by decide)
  ⟨by decide, h.1, h.2.1, h.2.2.1⟩

/-- C11, as stated, fails in the fractional second: of the ten fraction digits
of `2024-01-01T10:00:00.1234567891` the returned time keeps nine, so its
fractional second is not the one written. -/
theorem C11_fraction_beyond_nanoseconds_is_cut :
    Parse RFC3339 longFractionStamp = none ∧ Parse RFC3339Nano longFractionStamp = none
    ∧ parseTimestamp longFractionStamp = Except.ok ⟨1704103200, 123456789, Location.UTC⟩
    ∧ (⟨1704103200, 123456789, Location.UTC⟩ : Time).Nanosecond * 10 ^ 10
        ≠ decimal "1234567891".data * 10 ^ 9 := by
  decide

/-- C11 (amended): when `parseTimestamp` accepts a string through a zoneless
layout (both zoned layouts reject it), the returned time is in UTC, it is the
UTC time `Date` builds from its own civil fields, and the string writes exactly
those fields: the year is below 10000 and written with four digits, the month
(1 to 12) and the day (1 to the length of the month) with two, then a `T` or a
run of spaces, the hour (below 24) with two digits or one, the minute and the
second (below 60) with two digits, then an optional fraction. The nanoseconds
are below one second and are the first nine fraction digits, filled up with
zeros, and zero when no fraction is written. With these bounds the digits
written determine every field, and the fields determine the time. -/
theorem C11_zoneless_fields_as_written (timestampStr : String) (t : Time)
    (h1 : Parse RFC3339 timestampStr = none) (h2 : Parse RFC3339Nano timestampStr = none)
    (h : parseTimestamp timestampStr = Except.ok t) :
    t.Location = Location.UTC
    ∧ t = Date t.Year t.Month t.Day t.Hour t.Minute t.Second t.Nanosecond
    ∧ t.Year < 10000 ∧ 1 ≤ t.Month ∧ t.Month ≤ 12 ∧ 1 ≤ t.Day ∧ t.Day ≤ daysIn t.Month t.Year
    ∧ t.Hour < 24 ∧ t.Minute < 60 ∧ t.Second < 60 ∧ t.Nanosecond < 1000000000
    ∧ ∃ sep hourText fracText,
      timestampStr.data
        = padded 4 t.Year ++ ('-' :: (padded 2 t.Month ++ ('-' :: (padded 2 t.Day
          ++ (sep ++ (hourText ++ (':' :: (padded 2 t.Minute ++ (':' :: (padded 2 t.Second
          ++ fracText))))))))))
      ∧ (sep = ['T'] ∨ (sep ≠ [] ∧ ∀ c ∈ sep, c = ' '))
      ∧ (hourText = padded 2 t.Hour ∨ (t.Hour < 10 ∧ hourText = padded 1 t.Hour))
      ∧ ((fracText = [] ∧ t.Nanosecond = 0)
        ∨ ∃ c ds, fracText = c :: ds ∧ commaOrPeriod c = true ∧ ds ≠ []
            ∧ (∀ d ∈ ds, GoTime.isDigit d = true)
            ∧ padded 9 t.Nanosecond = (ds ++ List.replicate 9 '0').take 9) := by
  rw [parseTimestamp, parseTimestampLoop_eq_firstAccepted] at h
  simp only [firstAccepted, formats, List.filterMap_cons, h1, h2, Parse_layoutSeconds] at h
  cases hm : Parse layoutMicro timestampStr with
  | some t0 =>
    simp only [hm, List.head?_cons, Except.ok.injEq] at h
    rw [← h]
    exact Parse_zoneless_inv layoutSeconds ['T'] (Or.inl rfl) rfl timestampStr t0
      (by rw [Parse_layoutSeconds]; exact hm)
  | none =>
    simp only [hm] at h
    cases hd : Parse DateTime timestampStr with
    | some t0 =>
      simp only [hd, List.filterMap_nil, List.head?_cons, Except.ok.injEq] at h
      rw [← h]
      exact Parse_zoneless_inv DateTime [' '] (Or.inr rfl) rfl timestampStr t0 hd
    | none =>
      simp [hd] at h

/-- C11 (amended) on the second scenario of the specification:
`2024-01-01T10:00:00.123456` is read as 2024-01-01T10:00:00.123456Z. -/
theorem C11_zoneless_fields_as_written_witness :
    parseTimestamp "2024-01-01T10:00:00.123456"
        = Except.ok ⟨1704103200, 123456000, Location.UTC⟩
    ∧ (⟨1704103200, 123456000, Location.UTC⟩ : Time).Format RFC3339Nano
        = "2024-01-01T10:00:00.123456Z"
    ∧ (⟨1704103200, 123456000, Location.UTC⟩ : Time).Location = Location.UTC
    ∧ (⟨1704103200, 123456000, Location.UTC⟩ : Time)
        = Date (⟨1704103200, 123456000, Location.UTC⟩ : Time).Year
            (⟨1704103200, 123456000, Location.UTC⟩ : Time).Month
            (⟨1704103200, 123456000, Location.UTC⟩ : Time).Day
            (⟨1704103200, 123456000, Location.UTC⟩ : Time).Hour
            (⟨1704103200, 123456000, Location.UTC⟩ : Time).Minute
            (⟨1704103200, 123456000, Location.UTC⟩ : Time).Second
            (⟨1704103200, 123456000, Location.UTC⟩ : Time).Nanosecond
    ∧ (⟨1704103200, 123456000, Location.UTC⟩ : Time).Year < 10000
    ∧ 1 ≤ (⟨1704103200, 123456000, Location.UTC⟩ : Time).Month
    ∧ (⟨1704103200, 123456000, Location.UTC⟩ : Time).Month ≤ 12
    ∧ 1 ≤ (⟨1704103200, 123456000, Location.UTC⟩ : Time).Day
    ∧ (⟨1704103200, 123456000, Location.UTC⟩ : Time).Day
        ≤ daysIn (⟨1704103200, 123456000, Location.UTC⟩ : Time).Month
            (⟨1704103200, 123456000, Location.UTC⟩ : Time).Year
    ∧ (⟨1704103200, 123456000, Location.UTC⟩ : Time).Hour < 24
    ∧ (⟨1704103200, 123456000, Location.UTC⟩ : Time).Minute < 60
    ∧ (⟨1704103200, 123456000, Location.UTC⟩ : Time).Second < 60
    ∧ (⟨1704103200, 123456000, Location.UTC⟩ : Time).Nanosecond < 1000000000
    ∧ ∃ sep hourText fracText,
      "2024-01-01T10:00:00.123456".data
        = padded 4 (⟨1704103200, 123456000, Location.UTC⟩ : Time).Year
          ++ ('-' :: (padded 2 (⟨1704103200, 123456000, Location.UTC⟩ : Time).Month
          ++ ('-' :: (padded 2 (⟨1704103200, 123456000, Location.UTC⟩ : Time).Day
          ++ (sep ++ (hourText
          ++ (':' :: (padded 2 (⟨1704103200, 123456000, Location.UTC⟩ : Time).Minute
          ++ (':' :: (padded 2 (⟨1704103200, 123456000, Location.UTC⟩ : Time).Second
          ++ fracText))))))))))
      ∧ (sep = ['T'] ∨ (sep ≠ [] ∧ ∀ c ∈ sep, c = ' '))
      ∧ (hourText = padded 2 (⟨1704103200, 123456000, Location.UTC⟩ : Time).Hour
        ∨ ((⟨1704103200, 123456000, Location.UTC⟩ : Time).Hour < 10
          ∧ hourText = padded 1 (⟨1704103200, 123456000, Location.UTC⟩ : Time).Hour))
      ∧ ((fracText = [] ∧ (⟨1704103200, 123456000, Location.UTC⟩ : Time).Nanosecond = 0)
        ∨ ∃ c ds, fracText = c :: ds ∧ commaOrPeriod c = true ∧ ds ≠ []
            ∧ (∀ d ∈ ds, GoTime.isDigit d = true)
            ∧ padded 9 (⟨1704103200, 123456000, Location.UTC⟩ : Time).Nanosecond
                = (ds ++ List.replicate 9 '0').take 9) :=
  ⟨by decide, by decide,
   C11_zoneless_fields_as_written "2024-01-01T10:00:00.123456"
     ⟨1704103200, 123456000, Location.UTC⟩ (by decide) (by decide) (by decide)⟩

/-- C12, as stated, fails for large offsets: a time with whole seconds in the
year 2024 whose zone is 25 hours (1500 whole minutes) east of UTC is formatted
as `2024-01-02T11:00:00+25:00`, which `parseTimestamp` rejects. -/
theorem C12_offset_of_25_hours_is_rejected :
    tenOClockFarEast.nsec = 0 ∧ tenOClockFarEast.Year = 2024
    ∧ tenOClockFarEast.loc.offset % 60 = 0
    ∧ tenOClockFarEast.Format RFC3339 = "2024-01-02T11:00:00+25:00"
    ∧ parseTimestamp (tenOClockFarEast.Format RFC3339)
        = Except.error "unable to parse timestamp: 2024-01-02T11:00:00+25:00" := by
  decide

/-- C12 (amended): for every time with whole seconds whose wall-clock reading
lies in the years 0 to 9999 and whose zone offset is a whole number of minutes
of less than 25 hours, `parseTimestamp` applied to the time formatted with the
`RFC3339` layout returns no error and the time with the same instant and the
same zone offset (located in UTC when the offset is zero). -/
theorem C12_parse_undoes_RFC3339_format (t : Time) (hns : t.nsec = 0)
    (hlo : 0 ≤ t.localSeconds) (hhi : t.localSeconds < 3652425 * 86400)
    (hmin : t.loc.offset % 60 = 0) (homin : -90000 < t.loc.offset)
    (homax : t.loc.offset < 90000) :
    parseTimestamp (t.Format RFC3339)
        = Except.ok { unix := t.unix, nsec := t.nsec,
                      loc := if t.loc.offset = 0 then Location.UTC
                             else Location.zone t.loc.offset }
    ∧ (if t.loc.offset = 0 then Location.UTC else Location.zone t.loc.offset).offset
        = t.loc.offset := by
  constructor
  · rw [parseTimestamp, parseTimestampLoop_eq_firstAccepted]
    simp only [firstAccepted, formats, List.filterMap_cons,
      Parse_Format_RFC3339 t hlo hhi hmin homin homax, List.head?_cons, hns]
  · by_cases h0 : t.loc.offset = 0
    · rw [if_pos h0, h0]; rfl
    · rw [if_neg h0]; rfl

/-- C12 (amended) on the first scenario of the specification and on a time
with a zone two hours east of UTC. -/
theorem C12_parse_undoes_RFC3339_format_witness :
    tenOClock.Format RFC3339 = "2024-01-01T10:00:00Z"
    ∧ parseTimestamp "2024-01-01T10:00:00Z" = Except.ok tenOClock
    ∧ (⟨1704096000, 0, Location.zone 7200⟩ : Time).Format RFC3339 = "2024-01-01T10:00:00+02:00"
    ∧ parseTimestamp ((⟨1704096000, 0, Location.zone 7200⟩ : Time).Format RFC3339)
        = Except.ok ⟨1704096000, 0, Location.zone 7200⟩ :=
  ⟨by decide,
   (C12_parse_undoes_RFC3339_format tenOClock (by decide) (by decide) (by decide) (by decide)
     (by decide) (by decide)).1,
   by decide,
   (C12_parse_undoes_RFC3339_format ⟨1704096000, 0, Location.zone 7200⟩ (by decide) (by decide)
     (by decide) (by decide) (by decide) (by decide)).1⟩

/-- C13: for every input string `parseTimestamp` returns the parse produced by
the first format that accepts the string in the order (1) zoned with fractional
seconds, (2) zoned without fractional seconds, (3) zoneless with microsecond
fraction, (4) zoneless without fraction, (5) space-separated, and the error
when none of them accepts it. The list in the code names the zoned layout
without fraction before the one with fraction; `time.Parse` reads a fraction
after the seconds under either layout, so the two accept the same strings with
the same result and the first accepted parse is the same in both orders. -/
theorem C13_first_accepting_format_wins (timestampStr : String) :
    specOrder = [RFC3339Nano, RFC3339, layoutMicro, layoutSeconds, DateTime]
    ∧ specOrder.map Layout.text
        = ["2006-01-02T15:04:05.999999999Z07:00", "2006-01-02T15:04:05Z07:00",
           "2006-01-02T15:04:05.999999", "2006-01-02T15:04:05", "2006-01-02 15:04:05"]
    ∧ parseTimestamp timestampStr
        = (match firstAccepted specOrder timestampStr with
          | some t => Except.ok t
          | none => Except.error ("unable to parse timestamp: " ++ timestampStr))
    ∧ parseTimestamp timestampStr
        = (match firstAccepted formats timestampStr with
          | some t => Except.ok t
          | none => Except.error ("unable to parse timestamp: " ++ timestampStr)) := by
  refine ⟨rfl, rfl, ?_, parseTimestampLoop_eq_firstAccepted formats timestampStr⟩
  rw [firstAccepted_specOrder]
  exact parseTimestampLoop_eq_firstAccepted formats timestampStr

/-- C14: `healthCheck` pings Redis and then the database whatever the first
ping returns; the status is `healthy` with code 200 exactly when both pings
succeed and `unhealthy` with code 503 otherwise; the `redis` entry is
`connected` exactly when the Redis ping succeeded and the `database` entry
exactly when the database ping succeeded; the entries `service` and
`timestamp` are always present. -/
theorem C14_health_reports_both_pings (p : PingOutcomes) (w : World) :
    (healthCheck p w).pings = ["redis", "database"]
    ∧ (((healthCheck p w).health.lookup "status" = some "healthy"
          ∧ (healthCheck p w).statusCode = 200)
        ↔ (p.redisErr = none ∧ p.dbErr = none))
    ∧ (¬ (p.redisErr = none ∧ p.dbErr = none) →
        (healthCheck p w).health.lookup "status" = some "unhealthy"
          ∧ (healthCheck p w).statusCode = 503)
    ∧ ((healthCheck p w).health.lookup "redis" = some "connected" ↔ p.redisErr = none)
    ∧ (p.redisErr ≠ none → (healthCheck p w).health.lookup "redis" = some "disconnected")
    ∧ ((healthCheck p w).health.lookup "database" = some "connected" ↔ p.dbErr = none)
    ∧ (p.dbErr ≠ none → (healthCheck p w).health.lookup "database" = some "disconnected")
    ∧ (healthCheck p w).health.lookup "service" = some "worker"
    ∧ (healthCheck p w).health.lookup "timestamp" = some (p.now.Format RFC3339) := by
  cases hr : p.redisErr <;> cases hd : p.dbErr <;>
    simp [healthCheck, pingEntries, hr, hd, List.lookup]

/-- C15: an iteration whose dequeue returns no payload, because `BRPop` timed
out on an empty queue or failed with a connection error, leaves every Redis
list, the votes table, the `votesProcessed` counters and `dbErrors` as they
were; `redisErrors` goes up by exactly one in the error case and is unchanged
in the timeout case. -/
theorem C15_empty_dequeue_changes_nothing (config : Config) (o : Outcomes) (w : World)
    (h : o.brpopErr = true ∨ w.redis config.VoteQueue = []) :
    (processVotesStep config o w).redis = w.redis
    ∧ (processVotesStep config o w).votes = w.votes
    ∧ (processVotesStep config o w).votesProcessed = w.votesProcessed
    ∧ (processVotesStep config o w).dbErrors = w.dbErrors
    ∧ (processVotesStep config o w).redisErrors
        = w.redisErrors + (if o.brpopErr = true then 1 else 0) := by
  cases hpop : o.brpopErr with
  | true =>
    rw [step_pop_error config o w hpop]
    exact ⟨rfl, rfl, rfl, rfl, by simp⟩
  | false =>
    have hq : w.redis config.VoteQueue = [] := by
      rcases h with h | h
      · rw [hpop] at h; cases h
      · exact h
    rw [step_pop_timeout config o w hpop hq]
    exact ⟨rfl, rfl, rfl, rfl, by simp⟩

/-- C15 in both cases: a connection error while a payload is waiting (the
payload stays, one Redis error is counted), and a timeout on the empty queue. -/
theorem C15_empty_dequeue_changes_nothing_witness :
    ((processVotesStep votesConfig popFails (worldWithQueue [catsPayload])).redis "votes"
        = [catsPayload]
      ∧ (processVotesStep votesConfig popFails (worldWithQueue [catsPayload])).votes = []
      ∧ (processVotesStep votesConfig popFails (worldWithQueue [catsPayload])).dbErrors = 0
      ∧ (processVotesStep votesConfig popFails (worldWithQueue [catsPayload])).redisErrors = 1)
    ∧ ((processVotesStep votesConfig allOk emptyWorld).redis "votes" = []
      ∧ (processVotesStep votesConfig allOk emptyWorld).votes = []
      ∧ (processVotesStep votesConfig allOk emptyWorld).dbErrors = 0
      ∧ (processVotesStep votesConfig allOk emptyWorld).redisErrors = 0) :=
  have h1 := C15_empty_dequeue_changes_nothing votesConfig popFails
    (worldWithQueue [catsPayload]) (Or.inl (by decide))
  have h2 := C15_empty_dequeue_changes_nothing votesConfig allOk emptyWorld
    (Or.inr (by decide))
  ⟨⟨congrFun h1.1 "votes", h1.2.1, h1.2.2.2.1, h1.2.2.2.2⟩,
   ⟨congrFun h2.1 "votes", h2.2.1, h2.2.2.2.1, h2.2.2.2.2⟩⟩

/-- C16: retries are not capped. From a queue holding one decodable payload, if
every iteration pops successfully, every insert fails and every requeue push
succeeds, then after any number `n` of iterations the queue still holds exactly
that payload, the table has gained no row, and `dbErrors` has gone up by `n`. -/
theorem C16_retries_are_not_capped (config : Config) (os : List Outcomes) (w : World)
    (payload : String) (vote : Vote)
    (hq : w.redis config.VoteQueue = [payload])
    (hdec : Unmarshal payload = Except.ok vote)
    (hos : ∀ o ∈ os, o.brpopErr = false ∧ o.execErr = true ∧ o.lpushErr = false) :
    (processVotes config os w).redis config.VoteQueue = [payload]
    ∧ (processVotes config os w).votes = w.votes
    ∧ (processVotes config os w).dbErrors = w.dbErrors + os.length := by
  induction os generalizing w with
  | nil => simp [processVotes, hq]
  | cons o os ih =>
    obtain ⟨hpop, hexec, hpush⟩ := hos o (List.mem_cons_self _ _)
    have hq1 : w.redis config.VoteQueue = [] ++ [payload] := by simpa using hq
    have hstep := step_decode_ok config o w [] payload vote hq1 hpop hdec
    have hq2 : (processVotesStep config o w).redis config.VoteQueue = [payload] := by
      rw [hstep]; simp [insertVote, hexec, LPush, hpush]
    have hv : (processVotesStep config o w).votes = w.votes := by
      rw [hstep]; simp [insertVote, hexec]
    have hd : (processVotesStep config o w).dbErrors = w.dbErrors + 1 := by
      rw [hstep]; simp [insertVote, hexec]
    obtain ⟨h1, h2, h3⟩ := ih (processVotesStep config o w) hq2
      (fun o2 ho2 => hos o2 (List.mem_cons_of_mem _ ho2))
    have hrun : processVotes config (o :: os) w
        = processVotes config os (processVotesStep config o w) := rfl
    rw [hrun]
    refine ⟨h1, by rw [h2, hv], ?_⟩
    rw [h3, hd, List.length_cons]; omega

/-- C16 on three failing iterations over the first scenario of the specification. -/
theorem C16_retries_are_not_capped_witness :
    Unmarshal catsPayload = Except.ok ⟨"cats", "v1", "2024-01-01T10:00:00Z"⟩
    ∧ (processVotes votesConfig [insertFails, insertFails, insertFails]
        (worldWithQueue [catsPayload])).redis "votes" = [catsPayload]
    ∧ (processVotes votesConfig [insertFails, insertFails, insertFails]
        (worldWithQueue [catsPayload])).votes = []
    ∧ (processVotes votesConfig [insertFails, insertFails, insertFails]
        (worldWithQueue [catsPayload])).dbErrors = 3 :=
  ⟨by decide,
   C16_retries_are_not_capped votesConfig [insertFails, insertFails, insertFails]
     (worldWithQueue [catsPayload]) catsPayload ⟨"cats", "v1", "2024-01-01T10:00:00Z"⟩
     (by decide) (by decide) (by decide)⟩

/-- C17: two of the five formats never decide the result. `RFC3339Nano` parses
every string exactly as `RFC3339`, which is tried before it, and the zoneless
layout without fraction parses every string exactly as the zoneless layout
with microseconds, which is tried before it; hence `parseTimestamp` returns,
for every input, the same time or the same error as the loop over `RFC3339`,
the zoneless microsecond layout and the space-separated layout only. -/
theorem C17_two_formats_never_decide (timestampStr : String) :
    Parse RFC3339Nano timestampStr = Parse RFC3339 timestampStr
    ∧ Parse layoutSeconds timestampStr = Parse layoutMicro timestampStr
    ∧ parseTimestamp timestampStr = parseTimestampLoop formatsReduced timestampStr := by
  refine ⟨Parse_RFC3339Nano timestampStr, Parse_layoutSeconds timestampStr, ?_⟩
  rw [parseTimestamp, parseTimestampLoop_eq_firstAccepted, parseTimestampLoop_eq_firstAccepted,
    firstAccepted_formatsReduced]

end Worker

end VotingApp
